import Mathlib

/-!
# Verification of the OpenRiddle joust engine

A shallow embedding of the contest ("joust") engine implemented in
`src/services/agent-joust-server.mjs`, backed by the store semantics of
`src/services/agent-joust-db-postgres.mjs`, together with theorems checking
the natural-language specification against the code.

Modelling conventions:
* String ids (`ag_…`, `tr_…`, `jo_…`) are Lean `String`s.
* JS objects keyed by id (round posts, `votesByAgent`, `tribeResults`) are
  association lists with first-match lookup; the database `LIMIT 1` /
  primary-key semantics make keys unique in real runs, and theorems take
  `Nodup` hypotheses where that matters.
* The persistent store is a `Db` record threaded explicitly; each store
  operation (`getTribe`, `applyTribeDelta`, `upsertRoundPost`, …) is a Lean
  function on `Db` mirroring the SQL in the postgres backend.
* Outbound agent callbacks are an oracle: a function from the call's
  discriminating data to `Except Unit reply`.  A thrown/timed-out callback is
  `Except.error ()`; stepping records which calls were issued in a call log.
* JS `Math.round` is `⌊x + 1/2⌋` (nearest integer, ties toward `+∞`), and the
  IEEE-754 double product `d * 0.35` is modelled exactly: the double value of
  the literal `0.35` is the scaled integer `m35 / 2^54`, and the product is
  rounded to 53 significant bits, round-to-nearest, ties to even
  (`fl64Scaled`), all in exact integer arithmetic.
-/

namespace OpenRiddle

/-- Binary option of a contest prompt (the literal strings `"A"`/`"B"`). -/
inductive Choice
  | A
  | B
deriving DecidableEq, Repr

abbrev AgentId := String
abbrev TribeId := String

/-- First-match association-list lookup.  Models JS object property access and
the postgres `LIMIT 1` row lookups. -/
def alookup {β : Type} (l : List (String × β)) (k : String) : Option β :=
  (l.find? (fun p => decide (p.1 = k))).map (·.2)

/-- Replace the value under an existing key, or append a new entry.  Models the
`ON CONFLICT … DO UPDATE` upserts of the store. -/
def aupsert {β : Type} : List (String × β) → String → β → List (String × β)
  | [], k, v => [(k, v)]
  | (k', v') :: rest, k, v =>
    if k' = k then (k, v) :: rest else (k', v') :: aupsert rest k v

/-- Contest progression states, in the strict order
`draft → round1 → round2 → vote → done`. -/
inductive JState
  | draft
  | round1
  | round2
  | vote
  | done
deriving DecidableEq, Repr

/-- The two callback rounds. -/
inductive Round
  | round1
  | round2
deriving DecidableEq, Repr

/-- A recorded round post (`round_posts` row): message, the binary choice for
round 2 (`none` for round 1 and for round-2 forfeits), responding agent. -/
structure Post where
  message : String
  choice : Option Choice
  agentId : AgentId
deriving DecidableEq, Repr

/-- Per-tribe entry of the persisted results (`tribeResults[tribeId]`). -/
structure TribeResult where
  choice : Option Choice
  neutralVotes : Nat
  snitchVotes : Nat
  outsideVotes : Nat
  persuasionScore : Nat
  deltaInfamy : Int
deriving DecidableEq, Repr

/-- Decision metadata produced by `decideWinnerTribe` (verdict text and model
name are free-text not examined by any claim, so they are omitted). -/
structure Decision where
  mode : String
  source : String
  confidence : Option ℚ
  fallback : Bool
deriving DecidableEq, Repr

/-- One `movedFromTribes` entry of the migration record. -/
structure TribeMove where
  tribeId : TribeId
  movedCount : Nat
deriving DecidableEq, Repr

/-- Return value of `migrateParticipantsToWinner`. -/
structure Migration where
  winnerTribeId : Option TribeId
  movedAgents : Nat
  movedFromTribes : List TribeMove
deriving DecidableEq, Repr

/-- The persisted `results` record of a finished joust. -/
structure Results where
  winnerTribeId : Option TribeId
  tribeResults : List (TribeId × TribeResult)
  winningOption : Option Choice
  voteTotalsA : Nat
  voteTotalsB : Nat
  decision : Option Decision
  migration : Option Migration
deriving DecidableEq, Repr

/-- A contest.  `round1Posts`/`round2Posts` model `joust.rounds.roundN.posts`
(keyed by tribe id), `votes` models `joust.votes.byAgent`. -/
structure Joust where
  id : String
  tribeIds : List TribeId
  state : JState
  round1Posts : List (TribeId × Post)
  round2Posts : List (TribeId × Post)
  votes : List (AgentId × Choice)
  results : Option Results
deriving DecidableEq, Repr

/-- An agent row (fields the engine reads). -/
structure Agent where
  id : AgentId
  infamy : Int
  wins : Nat
  losses : Nat
deriving DecidableEq, Repr

/-- A tribe row (fields the engine reads). -/
structure Tribe where
  id : TribeId
  leaderAgentId : AgentId
  infamy : Int
  wins : Nat
  losses : Nat
deriving DecidableEq, Repr

/-- The store: agent directory, tribe directory, the tribe-membership relation
(each agent belongs to at most one tribe; `getAgentTribeId` takes the first
row, mirroring `LIMIT 1`), and the single contest being advanced. -/
structure Db where
  agents : List Agent
  tribes : List Tribe
  membership : List (AgentId × TribeId)
  joust : Joust
deriving DecidableEq, Repr

/-- `db.getAgentTribeId`: first membership row of the agent. -/
def getAgentTribeId (db : Db) (a : AgentId) : Option TribeId :=
  alookup db.membership a

/-- `db.getTribe`. -/
def getTribe (db : Db) (t : TribeId) : Option Tribe :=
  db.tribes.find? (fun tr => decide (tr.id = t))

/-- `db.getAgent`. -/
def getAgent (db : Db) (a : AgentId) : Option Agent :=
  db.agents.find? (fun ag => decide (ag.id = a))

/-- `db.listTribeMemberIds`: all agents whose membership row points at `t`. -/
def listTribeMemberIds (db : Db) (t : TribeId) : List AgentId :=
  (db.membership.filter (fun p => decide (p.2 = t))).map (·.1)

/-- `db.transferAgentToTribe`: delete every membership row of the agent, then
insert one pointing at the target tribe. -/
def transferAgentToTribe (db : Db) (a : AgentId) (t : TribeId) : Db :=
  { db with membership := (db.membership.filter (fun p => decide (¬ p.1 = a))) ++ [(a, t)] }

/-- The row update of `applyTribeDelta`: `infamy = infamy + delta` and a
win or loss increment. -/
def bumpTribe (delta : Int) (won : Bool) (tr : Tribe) : Tribe :=
  { tr with
    infamy := tr.infamy + delta
    wins := tr.wins + (if won then 1 else 0)
    losses := tr.losses + (if won then 0 else 1) }

/-- The row update of `applyAgentDelta`. -/
def bumpAgent (delta : Int) (won : Bool) (ag : Agent) : Agent :=
  { ag with
    infamy := ag.infamy + delta
    wins := ag.wins + (if won then 1 else 0)
    losses := ag.losses + (if won then 0 else 1) }

/-- `db.applyTribeDelta`: add `delta` to the tribe's infamy and bump the
win or loss counter. -/
def applyTribeDelta (db : Db) (t : TribeId) (delta : Int) (won : Bool) : Db :=
  { db with tribes := db.tribes.map (fun tr => if tr.id = t then bumpTribe delta won tr else tr) }

/-- `db.applyAgentDelta`: add `delta` to the agent's infamy and bump the
win or loss counter. -/
def applyAgentDelta (db : Db) (a : AgentId) (delta : Int) (won : Bool) : Db :=
  { db with agents := db.agents.map (fun ag => if ag.id = a then bumpAgent delta won ag else ag) }

/-- `db.getRoundPost`. -/
def getRoundPost (j : Joust) (t : TribeId) : Round → Option Post
  | .round1 => alookup j.round1Posts t
  | .round2 => alookup j.round2Posts t

/-- `db.upsertRoundPost`. -/
def upsertRoundPost (db : Db) (r : Round) (t : TribeId) (p : Post) : Db :=
  match r with
  | .round1 => { db with joust := { db.joust with round1Posts := aupsert db.joust.round1Posts t p } }
  | .round2 => { db with joust := { db.joust with round2Posts := aupsert db.joust.round2Posts t p } }

/-- `db.upsertVote`: latest write wins. -/
def upsertVote (db : Db) (a : AgentId) (v : Choice) : Db :=
  { db with joust := { db.joust with votes := aupsert db.joust.votes a v } }

/-- `db.updateJoustState`. -/
def updateJoustState (db : Db) (s : JState) : Db :=
  { db with joust := { db.joust with state := s } }

/-- `db.completeJoust`: set the terminal state and persist the results. -/
def completeJoust (db : Db) (res : Results) : Db :=
  { db with joust := { db.joust with state := JState.done, results := some res } }

/-! ## Scoring engine (`computePersuasion`) -/

/-- The `tribeChoices` object of `computePersuasion`: for each participating
tribe its recorded round-2 choice (`… || null`); any other key reads as
`undefined`, i.e. `none`. -/
def tribeChoice (j : Joust) (t : TribeId) : Option Choice :=
  if t ∈ j.tribeIds then (alookup j.round2Posts t).bind (·.choice) else none

/-- Per-tribe tally counters of `computePersuasion`. -/
structure Tally where
  neutralVotes : Nat
  snitchVotes : Nat
  outsideVotes : Nat
  persuasionScore : Nat
deriving DecidableEq, Repr

/-- The vote loop of `computePersuasion`, restated per tribe: a vote reaches a
tribe's counters only when the tribe has a recorded choice and the vote equals
it; then the three counters apply their own membership conditions.  (The JS
code folds over votes incrementing counters; as the increments are independent
indicator sums, counting filtered votes is the same function.) -/
def tallyFor (db : Db) (j : Joust) (votes : List (AgentId × Choice)) (t : TribeId) : Tally :=
  match tribeChoice j t with
  | none => ⟨0, 0, 0, 0⟩
  | some c =>
    let qual := votes.filter (fun av => decide (av.2 = c))
    let neutral := (qual.filter (fun av => decide (getAgentTribeId db av.1 = none))).length
    let snitch := (qual.filter (fun av =>
      decide (getAgentTribeId db av.1 ≠ none ∧ getAgentTribeId db av.1 ≠ some t ∧
        ((getAgentTribeId db av.1).bind (tribeChoice j)) ≠ none ∧
        ((getAgentTribeId db av.1).bind (tribeChoice j)) ≠ some c))).length
    let outside := (qual.filter (fun av => decide (getAgentTribeId db av.1 ≠ some t))).length
    ⟨neutral, snitch, outside, neutral + 2 * snitch⟩

/-- Output of `computePersuasion`.  (`tribeChoices` is recomputed from the
joust via `tribeChoice` where needed.) -/
structure Computed where
  totalsA : Nat
  totalsB : Nat
  winningOption : Option Choice
  tribeScores : List (TribeId × Tally)
deriving DecidableEq, Repr

/-- `computePersuasion`: vote totals, winning option (`none` on an exact tie),
and per-tribe tallies. -/
def computePersuasion (db : Db) (j : Joust) (votes : List (AgentId × Choice)) : Computed :=
  let a := (votes.filter (fun av => decide (av.2 = Choice.A))).length
  let b := (votes.filter (fun av => decide (av.2 = Choice.B))).length
  { totalsA := a
    totalsB := b
    winningOption := if a = b then none else if b < a then some Choice.A else some Choice.B
    tribeScores := j.tribeIds.map (fun t => (t, tallyFor db j votes t)) }

/-! Specification-side vote classification, phrased as in the specification
text: a *neutral* vote matches the tribe's recorded choice and comes from an
agent in no tribe; a *snitch* vote matches the tribe's recorded choice and
comes from an agent of a different tribe that has its own recorded round-2
choice, different from the scored tribe's.  (A tribe with a recorded choice is
a participating tribe by construction of `tribeChoice`.) -/

/-- Spec: `av` is a neutral vote for tribe `t`. -/
def NeutralVote (db : Db) (j : Joust) (t : TribeId) (a : AgentId) (v : Choice) : Prop :=
  tribeChoice j t = some v ∧ getAgentTribeId db a = none

instance (db : Db) (j : Joust) (t : TribeId) (a : AgentId) (v : Choice) :
    Decidable (NeutralVote db j t a v) := by
  unfold NeutralVote; exact instDecidableAnd

/-- Spec: `av` is a snitch vote for tribe `t`: it matches `t`'s recorded
choice and the voter belongs to a different participating tribe whose own
recorded choice differs. -/
def SnitchVote (db : Db) (j : Joust) (t : TribeId) (a : AgentId) (v : Choice) : Prop :=
  tribeChoice j t = some v ∧
  getAgentTribeId db a ≠ none ∧ getAgentTribeId db a ≠ some t ∧
  ((getAgentTribeId db a).bind (tribeChoice j)) ≠ none ∧
  ((getAgentTribeId db a).bind (tribeChoice j)) ≠ some v

instance (db : Db) (j : Joust) (t : TribeId) (a : AgentId) (v : Choice) :
    Decidable (SnitchVote db j t a v) := by
  unfold SnitchVote; exact instDecidableAnd

/-! ## Exact model of the arithmetic in `Math.round(deltaInfamy * 0.35)`

`deltaInfamy` is an integer, exactly representable in binary64; the literal
`0.35` denotes the binary64 value nearest to `7/20`, which is `m35 / 2^54`;
the product `deltaInfamy * 0.35` is the exact rational `deltaInfamy·m35/2^54`
rounded to binary64 (round to nearest, 53-bit significand, ties to even); and
`Math.round` returns the nearest integer with ties toward `+∞`.  All values
are carried as exact scaled integers `n / 2^54`, which the kernel evaluates
directly. -/

/-- The significand of the binary64 value of the literal `0.35`:
`fl(0.35) = m35 / 2^54` (proved nearest to `7/20` in `m35_nearest_double`). -/
def m35 : ℕ := 6305039478318694

/-- Position of the highest set bit of `a` (for `1 ≤ a < 2^120`): the `e`
with `2^e ≤ a < 2^(e+1)`. -/
def topBit (a : ℕ) : ℕ :=
  ((List.range 120).filter (fun i => 2 ^ i ≤ a)).length - 1

/-- Round the exact rational `n / 2^54` to the nearest binary64 value (ties to
even), returned scaled the same way (`result / 2^54`).  A magnitude below
`2^53` is exact already; otherwise the low `e - 52` bits are rounded off. -/
def fl64Scaled (n : ℤ) : ℤ :=
  let a := n.natAbs
  let e := topBit a
  if a = 0 ∨ e ≤ 52 then n
  else
    let s := e - 52
    let q := a / 2 ^ s
    let r := a % 2 ^ s
    let half := 2 ^ (s - 1)
    let k := if r < half then q else if half < r then q + 1
             else if q % 2 = 0 then q else q + 1
    n.sign * (k * 2 ^ s : ℕ)

/-- JS `Math.round` on the exact value `n / 2^w`:
`⌊n/2^w + 1/2⌋ = ⌊(2n + 2^w) / 2^(w+1)⌋` (floor division). -/
def jsRoundScaled (n : ℤ) (w : ℕ) : ℤ := Int.fdiv (2 * n + 2 ^ w) (2 ^ (w + 1))

/-- The exact integer each member agent receives:
`Math.round(deltaInfamy * 0.35)` under binary64 arithmetic. -/
def agentShare (delta : Int) : Int := jsRoundScaled (fl64Scaled (delta * (m35 : ℤ))) 54

/-- Spec-side rounding: round half away from zero, on an exact rational. -/
def roundHalfAway (q : ℚ) : ℤ := if q < 0 then -⌊-q + 1/2⌋ else ⌊q + 1/2⌋

/-- `m35 / 2^54` is the binary64 value nearest to `0.35 = 7/20`: every other
candidate significand is strictly farther away. -/
theorem m35_nearest_double (k : ℤ) (hk : k ≠ (m35 : ℤ)) :
    |(m35 : ℚ) / 2 ^ 54 - 7 / 20| < |(k : ℚ) / 2 ^ 54 - 7 / 20| := by
  have hb : |(m35 : ℚ) / 2 ^ 54 - 7 / 20| = 2 / (5 * 2 ^ 54) := by
    have h : (m35 : ℚ) / 2 ^ 54 - 7 / 20 = -(2 / (5 * 2 ^ 54)) := by
      norm_num [m35]
    rw [h, abs_neg, abs_of_pos]
    positivity
  have hone : (1 : ℚ) ≤ |(k : ℚ) - (m35 : ℚ)| := by
    have h0 : k - (m35 : ℤ) ≠ 0 := sub_ne_zero.mpr hk
    have h1 : (1 : ℤ) ≤ |k - (m35 : ℤ)| := Int.one_le_abs h0
    calc (1 : ℚ) ≤ ((|k - (m35 : ℤ)| : ℤ) : ℚ) := by exact_mod_cast h1
      _ = |(k : ℚ) - (m35 : ℚ)| := by rw [Int.cast_abs]; push_cast; ring_nf
  have hdist : (1 : ℚ) / 2 ^ 54 ≤ |(k : ℚ) / 2 ^ 54 - (m35 : ℚ) / 2 ^ 54| := by
    rw [div_sub_div_same, abs_div, abs_of_pos (by positivity : (0 : ℚ) < 2 ^ 54)]
    exact (div_le_div_right (by positivity)).mpr hone
  have htri : |(k : ℚ) / 2 ^ 54 - (m35 : ℚ) / 2 ^ 54|
      ≤ |(k : ℚ) / 2 ^ 54 - 7 / 20| + |(m35 : ℚ) / 2 ^ 54 - 7 / 20| := by
    have h : (k : ℚ) / 2 ^ 54 - (m35 : ℚ) / 2 ^ 54
        = ((k : ℚ) / 2 ^ 54 - 7 / 20) + -((m35 : ℚ) / 2 ^ 54 - 7 / 20) := by ring
    rw [h]
    calc |((k : ℚ) / 2 ^ 54 - 7 / 20) + -((m35 : ℚ) / 2 ^ 54 - 7 / 20)|
        ≤ |(k : ℚ) / 2 ^ 54 - 7 / 20| + |(-((m35 : ℚ) / 2 ^ 54 - 7 / 20))| := abs_add _ _
      _ = |(k : ℚ) / 2 ^ 54 - 7 / 20| + |(m35 : ℚ) / 2 ^ 54 - 7 / 20| := by rw [abs_neg]
  have hnum : (2 : ℚ) / (5 * 2 ^ 54) + 2 / (5 * 2 ^ 54) < 1 / 2 ^ 54 := by norm_num
  rw [hb] at htri ⊢
  linarith

/-! ## Resolution engine (`applyInfamy`) -/

/-- The `winnerMeta` rows for the infamy/id tie-break among tied eligible
tribes. -/
structure WinnerMeta where
  tribeId : TribeId
  infamy : Int
deriving DecidableEq, Repr

/-- JS comparator `(a, b) => b.infamy - a.infamy || a.tribeId.localeCompare(b.tribeId)`:
infamy descending, then tribe id ascending. -/
def cmpMeta (a b : WinnerMeta) : Ordering :=
  (compare b.infamy a.infamy).then (compare a.tribeId b.tribeId)

/-- The `ranked` rows of the rank-all fallback. -/
structure RankMeta where
  tribeId : TribeId
  persuasionScore : Nat
  infamy : Int
deriving DecidableEq, Repr

/-- JS comparator: persuasion score descending, infamy descending, tribe id
ascending. -/
def cmpRank (a b : RankMeta) : Ordering :=
  (compare b.persuasionScore a.persuasionScore).then
    ((compare b.infamy a.infamy).then (compare a.tribeId b.tribeId))

instance : Batteries.TransCmp cmpMeta :=
  inferInstanceAs (Batteries.TransCmp (compareLex
    (flip (compareOn (fun x : WinnerMeta => x.infamy)))
    (compareOn (fun x : WinnerMeta => x.tribeId))))

instance : Batteries.TransCmp cmpRank :=
  inferInstanceAs (Batteries.TransCmp (compareLex
    (flip (compareOn (fun x : RankMeta => x.persuasionScore)))
    (compareLex (flip (compareOn (fun x : RankMeta => x.infamy)))
      (compareOn (fun x : RankMeta => x.tribeId)))))

/-- Stable insertion for an `Ordering` comparator: the inserted element passes
exactly the entries it compares `gt` against. -/
def insertCmp {α : Type} (cmp : α → α → Ordering) (x : α) : List α → List α
  | [] => [x]
  | y :: ys => if cmp x y = Ordering.gt then y :: insertCmp cmp x ys else x :: y :: ys

/-- Stable sort by comparator (insertion sort); agrees with
`Array.prototype.sort` under a consistent comparator. -/
def sortCmp {α : Type} (cmp : α → α → Ordering) : List α → List α
  | [] => []
  | x :: xs => insertCmp cmp x (sortCmp cmp xs)

/-- `Number(tribeScores[tid]?.persuasionScore || 0)`. -/
def scoreOf (computed : Computed) (t : TribeId) : Nat :=
  match alookup computed.tribeScores t with
  | some tal => tal.persuasionScore
  | none => 0

/-- `Number(tribe?.infamy || 0)`. -/
def infamyOf (db : Db) (t : TribeId) : Int :=
  match getTribe db t with
  | some tr => tr.infamy
  | none => 0

/-- Winner among the eligible tribes (recorded choice equals the vote-computed
winning option): the subset with maximal persuasion score, tie-broken by
infamy descending then id ascending; `none` when no tribe is eligible. -/
def eligibleWinner (db : Db) (j : Joust) (computed : Computed) : Option TribeId :=
  match computed.winningOption with
  | none => none
  | some w =>
    match j.tribeIds.filter (fun tid => decide (tribeChoice j tid = some w)) with
    | [] => none
    | es =>
      let best := (es.map (fun tid => scoreOf computed tid)).foldl Nat.max 0
      match es.filter (fun tid => decide (scoreOf computed tid = best)) with
      | [w1] => some w1
      | ws =>
        ((sortCmp cmpMeta (ws.map (fun tid => WinnerMeta.mk tid (infamyOf db tid)))).head?).map
          (·.tribeId)

/-- The rank-all fallback (no eligible tribe): rank every participating tribe
by persuasion score desc, infamy desc, id asc and take the top; the winning
option becomes the winner's own choice when it has one. -/
def rankFallback (db : Db) (j : Joust) (computed : Computed) : Option TribeId × Option Choice :=
  let ranked := sortCmp cmpRank
    (j.tribeIds.map (fun tid => RankMeta.mk tid (scoreOf computed tid) (infamyOf db tid)))
  match ranked.head? with
  | some top =>
    (some top.tribeId, ((tribeChoice j top.tribeId).orElse fun _ => computed.winningOption))
  | none => (none, computed.winningOption)

/-- Winner selection without a forced winner (lines 349–381 of the engine). -/
def selectWinnerUnforced (db : Db) (j : Joust) (computed : Computed) :
    Option TribeId × Option Choice :=
  match eligibleWinner db j computed with
  | some w1 => (some w1, computed.winningOption)
  | none => rankFallback db j computed

/-- Winner selection of `applyInfamy`: a forced winner that is one of the
contest's tribes wins outright (the effective winning option becoming its own
choice, else the vote-computed option); otherwise eligible-tribe selection
with the rank-all fallback. -/
def selectWinner (db : Db) (j : Joust) (computed : Computed) (forced : Option TribeId) :
    Option TribeId × Option Choice :=
  match forced with
  | some f =>
    if f ∈ j.tribeIds then
      (some f, ((tribeChoice j f).orElse fun _ => computed.winningOption))
    else selectWinnerUnforced db j computed
  | none => selectWinnerUnforced db j computed

/-- `!!winningOption && choice === winningOption`. -/
def sideWins (j : Joust) (winningOption : Option Choice) (t : TribeId) : Bool :=
  match winningOption, tribeChoice j t with
  | some w, some c => decide (c = w)
  | _, _ => false

/-- The per-tribe infamy delta `base + bonus + persuasionScore`. -/
def tribeDelta (j : Joust) (computed : Computed) (winner : Option TribeId)
    (winningOption : Option Choice) (t : TribeId) : Int :=
  let s := (alookup computed.tribeScores t).getD ⟨0, 0, 0, 0⟩
  let base : Int :=
    match winningOption with
    | some _ => if sideWins j winningOption t then 6 else -6
    | none => if winner = some t then 2 else -2
  let bonus : Int := if winner = some t then 8 else 0
  base + bonus + (s.persuasionScore : Int)

/-- The `tribeResults[tribeId]` row recorded by `applyInfamy`. -/
def tribeOutcome (j : Joust) (computed : Computed) (winner : Option TribeId)
    (winningOption : Option Choice) (t : TribeId) : TribeResult :=
  let s := (alookup computed.tribeScores t).getD ⟨0, 0, 0, 0⟩
  { choice := tribeChoice j t
    neutralVotes := s.neutralVotes
    snitchVotes := s.snitchVotes
    outsideVotes := s.outsideVotes
    persuasionScore := s.persuasionScore
    deltaInfamy := tribeDelta j computed winner winningOption t }

/-- The member loop: each member receives `Math.round(delta * 0.35)` infamy
and the tribe's win/loss outcome. -/
def applyMemberDeltas (db : Db) (members : List AgentId) (delta : Int) (won : Bool) : Db :=
  members.foldl (fun d a => applyAgentDelta d a (agentShare delta) won) db

/-- One iteration of the mutation loop of `applyInfamy` for tribe `t`. -/
def infamyStep (j : Joust) (computed : Computed) (winner : Option TribeId)
    (winningOption : Option Choice) (d : Db) (t : TribeId) : Db :=
  let delta := tribeDelta j computed winner winningOption t
  let won := sideWins j winningOption t
  let d1 := applyTribeDelta d t delta won
  applyMemberDeltas d1 (listTribeMemberIds d1 t) delta won

/-- `applyInfamy`: select the winner and effective winning option, build the
per-tribe results, and apply all tribe/member mutations in one pass over the
participating tribes. -/
def applyInfamy (db : Db) (j : Joust) (computed : Computed) (forced : Option TribeId) :
    Results × Db :=
  let wp := selectWinner db j computed forced
  let res : Results :=
    { winnerTribeId := wp.1
      tribeResults := j.tribeIds.map (fun t => (t, tribeOutcome j computed wp.1 wp.2 t))
      winningOption := wp.2
      voteTotalsA := computed.totalsA
      voteTotalsB := computed.totalsB
      decision := none
      migration := none }
  (res, j.tribeIds.foldl (infamyStep j computed wp.1 wp.2) db)

/-! ## Reputation migration (`migrateParticipantsToWinner`) -/

/-- Inner loop over one source tribe's member list: skip agents already in the
winner set, transfer the rest (adding them to the set), and count the moves
made for this tribe. -/
def migrateTribe (w : TribeId) : List AgentId → Db → List AgentId → Db × List AgentId × Nat
  | [], db, wm => (db, wm, 0)
  | a :: rest, db, wm =>
    if a ∈ wm then migrateTribe w rest db wm
    else
      let out := migrateTribe w rest (transferAgentToTribe db a w) (wm ++ [a])
      (out.1, out.2.1, out.2.2 + 1)

/-- Outer loop over the participating tribes: skip the winner itself, move the
members of every other tribe, recording a `movedFromTribes` entry when at
least one agent moved, and accumulate the total. -/
def migratePass (w : TribeId) :
    List TribeId → Db → List AgentId → Nat → List TribeMove → Db × Nat × List TribeMove
  | [], db, _, movedAgents, acc => (db, movedAgents, acc)
  | t :: rest, db, wm, movedAgents, acc =>
    if t = w then migratePass w rest db wm movedAgents acc
    else
      migratePass w rest (migrateTribe w (listTribeMemberIds db t) db wm).1
        (migrateTribe w (listTribeMemberIds db t) db wm).2.1
        (movedAgents + (migrateTribe w (listTribeMemberIds db t) db wm).2.2)
        (if 0 < (migrateTribe w (listTribeMemberIds db t) db wm).2.2 then
          acc ++ [⟨t, (migrateTribe w (listTribeMemberIds db t) db wm).2.2⟩] else acc)

/-- `migrateParticipantsToWinner`: no-op without a winner; otherwise move
every member of every other participating tribe into the winner's membership,
skipping agents already in the winner's member set. -/
def migrateParticipantsToWinner (db : Db) (j : Joust) (winner : Option TribeId) :
    Migration × Db :=
  match winner with
  | none => ({ winnerTribeId := none, movedAgents := 0, movedFromTribes := [] }, db)
  | some w =>
    let out := migratePass w j.tribeIds db (listTribeMemberIds db w) 0 []
    ({ winnerTribeId := some w, movedAgents := out.2.1, movedFromTribes := out.2.2 }, out.1)

/-! ## Decision strategy (`decideWinnerTribe` and the analyzers) -/

/-- ASCII lower-casing of one character (the only case change relevant to the
engine's `toLowerCase()` comparisons, all of which are against ASCII
keywords). -/
def lowerChar (c : Char) : Char :=
  if 'A' ≤ c && c ≤ 'Z' then Char.ofNat (c.toNat + 32) else c

/-- ASCII upper-casing of one character (for `toUpperCase()` on the `A`/`B`
choice and vote fields). -/
def upperChar (c : Char) : Char :=
  if 'a' ≤ c && c ≤ 'z' then Char.ofNat (c.toNat - 32) else c

/-- `s.toLowerCase()` (ASCII). -/
def lowerStr (s : String) : String := String.mk (s.data.map lowerChar)

/-- `s.toUpperCase()` (ASCII). -/
def upperStr (s : String) : String := String.mk (s.data.map upperChar)

/-- `String(process.env.JOUST_VOTER_SCOPE || 'arena').toLowerCase()` followed
by `=== 'all' ? 'all' : 'arena'`: an absent or empty configuration value
falls back to the restricted `'arena'` scope. -/
def voterScopeOf (env : Option String) : String :=
  let raw := lowerStr (match env with
    | none => "arena"
    | some s => if s = "" then "arena" else s)
  if raw = "all" then "all" else "arena"

/-- `String(process.env.JOUST_WINNER_DECIDER_MODE || 'rules').toLowerCase()`
followed by `=== 'ai' ? 'ai' : 'rules'`. -/
def winnerDeciderModeOf (env : Option String) : String :=
  let raw := lowerStr (match env with
    | none => "rules"
    | some s => if s = "" then "rules" else s)
  if raw = "ai" then "ai" else "rules"

/-- The parsed JSON of a *successful* external analysis call (transport
errors, non-2xx responses and JSON-extraction failures are the oracle's
`Except.error` instead).  A missing `winnerTribeId` is the empty string
(`String(parsed.winnerTribeId || '')`); a missing or non-finite confidence is
`none` (handled by `clampNumber`'s fallback). -/
structure ParsedAnalysis where
  winnerTribeId : String
  confidence : Option ℚ
deriving DecidableEq, Repr

/-- Analyzer result (the fields the engine reads downstream; the free-text
verdict/highlights/model fields are not examined by any claim). -/
structure Analysis where
  winnerTribeId : Option TribeId
  confidence : ℚ
  source : String
deriving DecidableEq, Repr

/-- `tribeRows.filter(Boolean)` of `buildAnalyzerInput`: the contest's tribes
that exist in the store, in participant order. -/
def tribesOf (db : Db) (j : Joust) : List Tribe :=
  j.tribeIds.filterMap (getTribe db)

/-- `heuristicAnalyzeJoust`: the persisted winner if any, else the top
persuasion scorer of the persisted results (stable sort, score descending);
confidence `0.62` when the winner tribe exists in the store, else `0.4`. -/
def heuristicAnalyzeJoust (db : Db) (j : Joust) : Analysis :=
  let winnerFromResults := j.results.bind (·.winnerTribeId)
  let winnerTribeId : Option TribeId :=
    match winnerFromResults with
    | some w => some w
    | none =>
      match j.results with
      | none => none
      | some res =>
        ((sortCmp (fun a b => compare b.2 a.2)
          (res.tribeResults.map (fun p => (p.1, p.2.persuasionScore)))).head?).map (·.1)
  let winnerTribe := (tribesOf db j).find? (fun tr => decide (some tr.id = winnerTribeId))
  { winnerTribeId := winnerTribeId
    confidence := if winnerTribe.isSome then 62/100 else 4/10
    source := "heuristic" }

/-- The post-parse logic of `openAiAnalyzeJoust` on a successful call: the
returned winner id is accepted only when it names one of the contest's
(existing) tribes, otherwise the heuristic's winner is substituted — but the
result is tagged `source = "openai"` either way. -/
def openAiAnalyzeJoust (db : Db) (j : Joust) (parsed : ParsedAnalysis) : Analysis :=
  let fallback := heuristicAnalyzeJoust db j
  let candidate := parsed.winnerTribeId
  let validWinner := (tribesOf db j).any (fun tr => decide (tr.id = candidate))
  { winnerTribeId := if validWinner then some candidate else fallback.winnerTribeId
    confidence :=
      match parsed.confidence with
      | some q => max 0 (min 1 q)
      | none => fallback.confidence
    source := "openai" }

/-- Winner decision: the optional forced winner plus decision metadata. -/
structure WinnerDecision where
  winnerTribeId : Option TribeId
  decision : Decision
deriving DecidableEq, Repr

/-- `decideWinnerTribe`: `rules` mode never forces a winner; `ai` mode uses
the heuristic directly (tagged fallback) when no key is configured or the
external call fails, and otherwise takes the `openAiAnalyzeJoust` result with
`fallback := (source !== 'openai')`. -/
def decideWinnerTribe (mode : String) (hasKey : Bool)
    (analysisOracle : Except Unit ParsedAnalysis) (db : Db) (j : Joust) : WinnerDecision :=
  if ¬ mode = "ai" then
    { winnerTribeId := none
      decision :=
        { mode := "rules", source := "vote+persuasion", confidence := none, fallback := false } }
  else
    let fb := heuristicAnalyzeJoust db j
    if ¬ hasKey then
      { winnerTribeId := fb.winnerTribeId
        decision :=
          { mode := "ai", source := "heuristic-fallback", confidence := some fb.confidence,
            fallback := true } }
    else
      match analysisOracle with
      | .ok parsed =>
        let analysis := openAiAnalyzeJoust db j parsed
        { winnerTribeId := analysis.winnerTribeId
          decision :=
            { mode := "ai", source := analysis.source, confidence := some analysis.confidence,
              fallback := decide (¬ analysis.source = "openai") } }
      | .error _ =>
        { winnerTribeId := fb.winnerTribeId
          decision :=
            { mode := "ai", source := "heuristic-fallback", confidence := some fb.confidence,
              fallback := true } }

/-! ## Contest state machine (`stepJoust`) -/

/-- Reply to a `joust_round` callback: `out?.message || ''` and
`String(out?.choice || '')`. -/
structure RoundReply where
  message : String
  choice : String
deriving DecidableEq, Repr

/-- Reply to a `wyr_vote` callback: `String(out?.vote || '')`. -/
structure VoteReply where
  vote : String
deriving DecidableEq, Repr

/-- The callback channel, as an oracle over the discriminating call data:
`Except.error ()` is a thrown transport/timeout error. -/
structure Oracle where
  roundReply : Round → TribeId → Except Unit RoundReply
  voteReply : AgentId → Except Unit VoteReply
  analysis : Except Unit ParsedAnalysis

/-- Which participants an advance call actually invoked. -/
inductive CallEvent
  | roundCall (r : Round) (t : TribeId) (agent : AgentId)
  | voteCall (agent : AgentId)
deriving DecidableEq, Repr

/-- Left-to-right replacement of CRLF by LF (`replace(/\r\n/g, '\n')`). -/
def normCRLF : List Char → List Char
  | [] => []
  | '\r' :: '\n' :: rest => '\n' :: normCRLF rest
  | c :: rest => c :: normCRLF rest

/-- `clampText`: normalize CRLF to LF and truncate to `maxLen` characters
(JS `slice(0, maxLen)` — truncation, not rejection). -/
def clampText (s : String) (maxLen : Nat) : String :=
  let t := String.mk (normCRLF s.data)
  if t.data.length ≤ maxLen then t else String.mk (t.data.take maxLen)

/-- Substring test (scan all suffixes). -/
def strContains (s pat : String) : Bool :=
  (List.range (s.data.length + 1)).any (fun i => pat.data.isPrefixOf (s.data.drop i))

/-- `hasLink`: the case-insensitive test `/https?:\/\/|www\./i`. -/
def hasLink (s : String) : Bool :=
  strContains (lowerStr s) "http://" || strContains (lowerStr s) "https://" ||
    strContains (lowerStr s) "www."

/-- The round token: `'#' + joust.id.slice(0, 5)`. -/
def requiredToken (j : Joust) : String := "#" ++ String.mk (j.id.data.take 5)

/-- Whether a round call must be made for tribe `t`: skip when a post exists;
read the tribe and its leader agent, skip if either is missing. -/
def roundCallee (db : Db) (t : TribeId) (r : Round) : Option Agent :=
  match getRoundPost db.joust t r with
  | some _ => none
  | none =>
    match getTribe db t with
    | none => none
    | some tribe => getAgent db tribe.leaderAgentId

/-- The round-1 post computed from a reply: clamp to 240 chars; an empty or
link-bearing clamped message forfeits (`"<token> (forfeit)"`); otherwise the
token is prepended when the clamped message does not already contain it. -/
def r1Post (token : String) (reply : RoundReply) (agentId : AgentId) : Post :=
  if clampText reply.message 240 = "" || hasLink (clampText reply.message 240) then
    ⟨token ++ " (forfeit)", none, agentId⟩
  else if strContains (clampText reply.message 240) token then
    ⟨clampText reply.message 240, none, agentId⟩
  else ⟨token ++ " " ++ clampText reply.message 240, none, agentId⟩

/-- Record a round-1 reply. -/
def recordRound1 (db : Db) (t : TribeId) (agentId : AgentId) (reply : RoundReply) : Db :=
  upsertRoundPost db Round.round1 t (r1Post (requiredToken db.joust) reply agentId)

/-- The parsed round-2 choice: the uppercased choice must be `A` or `B`. -/
def r2Choice (reply : RoundReply) : Option Choice :=
  if upperStr reply.choice = "A" then some Choice.A
  else if upperStr reply.choice = "B" then some Choice.B else none

/-- The round-2 post computed from a reply: clamp to 420 chars; an empty,
choice-less or link-bearing reply forfeits with no choice. -/
def r2Post (reply : RoundReply) (agentId : AgentId) : Post :=
  if clampText reply.message 420 = "" || (r2Choice reply).isNone ||
      hasLink (clampText reply.message 420) then
    ⟨"(forfeit)", none, agentId⟩
  else ⟨clampText reply.message 420, r2Choice reply, agentId⟩

/-- Record a round-2 reply. -/
def recordRound2 (db : Db) (t : TribeId) (agentId : AgentId) (reply : RoundReply) : Db :=
  upsertRoundPost db Round.round2 t (r2Post reply agentId)

/-- The round-1 tribe loop, sequential; a thrown callback aborts the pass
(the flag turns `false`), keeping all posts recorded so far. -/
def round1Pass (oracle : Oracle) : List TribeId → Db → Db × List CallEvent × Bool
  | [], db => (db, [], true)
  | t :: rest, db =>
    match roundCallee db t Round.round1 with
    | none => round1Pass oracle rest db
    | some ag =>
      match oracle.roundReply Round.round1 t with
      | .error _ => (db, [CallEvent.roundCall Round.round1 t ag.id], false)
      | .ok reply =>
        let out := round1Pass oracle rest (recordRound1 db t ag.id reply)
        (out.1, CallEvent.roundCall Round.round1 t ag.id :: out.2.1, out.2.2)

/-- The round-2 tribe loop; identical shape to round 1. -/
def round2Pass (oracle : Oracle) : List TribeId → Db → Db × List CallEvent × Bool
  | [], db => (db, [], true)
  | t :: rest, db =>
    match roundCallee db t Round.round2 with
    | none => round2Pass oracle rest db
    | some ag =>
      match oracle.roundReply Round.round2 t with
      | .error _ => (db, [CallEvent.roundCall Round.round2 t ag.id], false)
      | .ok reply =>
        let out := round2Pass oracle rest (recordRound2 db t ag.id reply)
        (out.1, CallEvent.roundCall Round.round2 t ag.id :: out.2.1, out.2.2)

/-- `db.listAgents()` joined with each agent's (first) membership row; the
directory ordering is irrelevant to every claim, so insertion order is kept. -/
def listAgentsWithTribe (db : Db) : List (Agent × Option TribeId) :=
  db.agents.map (fun ag => (ag, getAgentTribeId db ag.id))

/-- The vote-phase poll loop: under `'arena'` scope skip agents whose tribe is
set and outside the contest; skip agents that already voted (checked against
the joust as read at entry); call the rest, swallowing failures; record valid
`A`/`B` votes. -/
def votePass (oracle : Oracle) (scope : String) (initialVotes : List (AgentId × Choice))
    (tribeIds : List TribeId) :
    List (Agent × Option TribeId) → Db → Db × List CallEvent
  | [], db => (db, [])
  | (ag, tid) :: rest, db =>
    if decide (scope = "arena") &&
        (match tid with
         | some t => decide (t ∉ tribeIds)
         | none => false) then
      votePass oracle scope initialVotes tribeIds rest db
    else if (alookup initialVotes ag.id).isSome then
      votePass oracle scope initialVotes tribeIds rest db
    else
      match oracle.voteReply ag.id with
      | .error _ =>
        let out := votePass oracle scope initialVotes tribeIds rest db
        (out.1, CallEvent.voteCall ag.id :: out.2)
      | .ok reply =>
        let v := upperStr reply.vote
        let db' :=
          if v = "A" then upsertVote db ag.id Choice.A
          else if v = "B" then upsertVote db ag.id Choice.B
          else db
        let out := votePass oracle scope initialVotes tribeIds rest db'
        (out.1, CallEvent.voteCall ag.id :: out.2)

/-- The terminal computation of the vote phase: score the refreshed contest,
decide the (optionally forced) winner, apply infamy, migrate members, persist
the combined results and mark the contest done. -/
def resolveJoust (mode : String) (hasKey : Bool) (oracle : Oracle) (db : Db) : Db :=
  let refreshed := db.joust
  let computed := computePersuasion db refreshed refreshed.votes
  let wd := decideWinnerTribe mode hasKey oracle.analysis db refreshed
  let out := applyInfamy db refreshed computed wd.winnerTribeId
  let res1 := { out.1 with decision := some wd.decision }
  let mig := migrateParticipantsToWinner out.2 refreshed out.1.winnerTribeId
  completeJoust mig.2 { res1 with migration := some mig.1 }

/-- Result of one advance call: the store afterwards, whether the call
completed (or a round-phase callback error propagated), and the call log. -/
structure StepOutcome where
  db : Db
  ok : Bool
  calls : List CallEvent
deriving DecidableEq, Repr

/-- `stepJoust`: advance the contest exactly one state.  `done` is inert;
`draft` transitions without callbacks; `round1`/`round2` run their tribe
loops (a thrown callback propagates: `ok = false`, state not advanced, prior
writes kept); `vote` polls all eligible agents (failures swallowed) and then
resolves the contest to `done`. -/
def stepJoust (mode : String) (hasKey : Bool) (scope : String) (oracle : Oracle) (db : Db) :
    StepOutcome :=
  match db.joust.state with
  | JState.done => ⟨db, true, []⟩
  | JState.draft => ⟨updateJoustState db JState.round1, true, []⟩
  | JState.round1 =>
    let out := round1Pass oracle db.joust.tribeIds db
    if out.2.2 then ⟨updateJoustState out.1 JState.round2, true, out.2.1⟩
    else ⟨out.1, false, out.2.1⟩
  | JState.round2 =>
    let out := round2Pass oracle db.joust.tribeIds db
    if out.2.2 then ⟨updateJoustState out.1 JState.vote, true, out.2.1⟩
    else ⟨out.1, false, out.2.1⟩
  | JState.vote =>
    let out := votePass oracle scope db.joust.votes db.joust.tribeIds (listAgentsWithTribe db) db
    ⟨resolveJoust mode hasKey oracle out.1, true, out.2⟩

/-- The state each non-terminal state advances to. -/
def nextState : JState → JState
  | JState.draft => JState.round1
  | JState.round1 => JState.round2
  | JState.round2 => JState.vote
  | JState.vote => JState.done
  | JState.done => JState.done

/-! ## Concrete fixtures (used by witnesses and counterexamples)

The two-tribe scenario of the specification: `t1` chose `A`, `t2` chose `B`;
one vote from the tribeless agent `n1` (neutral) and one from `t2`'s member
`m2` (a snitch), both for `A`. -/

/-- The two-tribe contest in the vote state with both round-2 choices and the
two votes recorded. -/
def exJoust2 : Joust :=
  ⟨"jo_x", ["t1", "t2"], JState.vote, [],
    [("t1", ⟨"p1", some Choice.A, "l1"⟩), ("t2", ⟨"p2", some Choice.B, "l2"⟩)],
    [("n1", Choice.A), ("m2", Choice.A)], none⟩

/-- Store for the two-tribe scenario: voters `n1` (no tribe) and `m2` (member
of `t2`), tribes `t1`/`t2` with leaders `l1`/`l2`. -/
def exDb2 : Db :=
  ⟨[⟨"n1", 100, 0, 0⟩, ⟨"m2", 100, 0, 0⟩],
    [⟨"t1", "l1", 0, 0, 0⟩, ⟨"t2", "l2", 0, 0, 0⟩],
    [("m2", "t2")], exJoust2⟩

/-- 76 tribeless voters, all voting `A` (drives tribe `t1`'s delta to
`6 + 8 + 76 = 90`, whose `0.35` share exposes the double-rounding edge). -/
def exVoters : List (AgentId × Choice) :=
  (List.range 76).map (fun i => ("v" ++ toString i, Choice.A))

/-- Contest for the delta-90 scenario: `t1` chose `A`, `t2` chose `B`, 76
neutral `A` votes recorded. -/
def exJoust76 : Joust :=
  ⟨"jo_y", ["t1", "t2"], JState.vote, [],
    [("t1", ⟨"p1", some Choice.A, "l1"⟩), ("t2", ⟨"p2", some Choice.B, "l2"⟩)],
    exVoters, none⟩

/-- Store for the delta-90 scenario: one agent `m1`, the sole member of the
winning tribe `t1`. -/
def exDb76 : Db :=
  ⟨[⟨"m1", 100, 0, 0⟩], [⟨"t1", "l1", 0, 0, 0⟩, ⟨"t2", "l2", 0, 0, 0⟩],
    [("m1", "t1")], exJoust76⟩

/-- Contest for the exact-tie scenario: one `A` vote, one `B` vote. -/
def exJoustTie : Joust :=
  ⟨"jo_t", ["t1", "t2"], JState.vote, [],
    [("t1", ⟨"p1", some Choice.A, "l1"⟩), ("t2", ⟨"p2", some Choice.B, "l2"⟩)],
    [("n1", Choice.A), ("n2", Choice.B)], none⟩

/-- Store for the tie scenario: two tribeless voters; `t1` carries more
infamy than `t2`, so the rank-all fallback must pick `t1` on the infamy
tie-break. -/
def exDbTie : Db :=
  ⟨[⟨"n1", 100, 0, 0⟩, ⟨"n2", 100, 0, 0⟩],
    [⟨"t1", "l1", 5, 0, 0⟩, ⟨"t2", "l2", 3, 0, 0⟩], [], exJoustTie⟩

/-- Contest for the conquest scenario: three participating tribes. -/
def exJoust3 : Joust := ⟨"jo_m", ["t1", "t2", "t3"], JState.vote, [], [], [], none⟩

/-- Store for the conquest scenario: `t2` and `t3` hold two members each,
none already in the winner `t1`. -/
def exDb3 : Db :=
  ⟨[], [⟨"t1", "l1", 0, 0, 0⟩, ⟨"t2", "l2", 0, 0, 0⟩, ⟨"t3", "l3", 0, 0, 0⟩],
    [("b1", "t2"), ("b2", "t2"), ("c1", "t3"), ("c2", "t3")], exJoust3⟩

/-- A finished contest (used by the analyzer claims): persisted results with
no designated winner recorded, `t1` leading on persuasion score. -/
def exResultsDone : Results :=
  ⟨none, [("t1", ⟨some Choice.A, 1, 1, 2, 3, 17⟩), ("t2", ⟨some Choice.B, 0, 0, 0, 0, -6⟩)],
    some Choice.A, 2, 0, none, none⟩

/-- The finished two-tribe contest carrying `exResultsDone`. -/
def exJoustDone : Joust :=
  ⟨"jo_d", ["t1", "t2"], JState.done, [],
    [("t1", ⟨"p1", some Choice.A, "l1"⟩), ("t2", ⟨"p2", some Choice.B, "l2"⟩)],
    [("n1", Choice.A), ("m2", Choice.A)], some exResultsDone⟩

/-- Store for the finished contest. -/
def exDbDone : Db :=
  ⟨[⟨"n1", 100, 0, 0⟩, ⟨"m2", 100, 0, 0⟩],
    [⟨"t1", "l1", 17, 1, 0⟩, ⟨"t2", "l2", -6, 0, 1⟩], [("m2", "t2")], exJoustDone⟩

/-- A successfully parsed analysis naming a tribe id outside the contest. -/
def exParsedBad : ParsedAnalysis := ⟨"ghost", none⟩

/-- An always-answering oracle: round replies carry message `"hello"` and
choice `"A"`, every vote reply is `"A"`, the analysis call fails. -/
def exOracleA : Oracle :=
  ⟨fun _ _ => Except.ok ⟨"hello", "A"⟩, fun _ => Except.ok ⟨"A"⟩, Except.error ()⟩

/-- A contest in the vote state with recorded round-2 choices and no votes. -/
def exJoustOut : Joust :=
  ⟨"jo_s", ["t1", "t2"], JState.vote, [],
    [("t1", ⟨"p1", some Choice.A, "l1"⟩), ("t2", ⟨"p2", some Choice.B, "l2"⟩)], [], none⟩

/-- Store whose only agent belongs to `t9`, a tribe outside the contest. -/
def exDbOut : Db :=
  ⟨[⟨"out1", 100, 0, 0⟩], [⟨"t1", "l1", 5, 0, 0⟩, ⟨"t2", "l2", 3, 0, 0⟩],
    [("out1", "t9")], exJoustOut⟩

/-- Store whose only agent belongs to no tribe. -/
def exDbPoll : Db :=
  ⟨[⟨"n1", 100, 0, 0⟩], [⟨"t1", "l1", 5, 0, 0⟩, ⟨"t2", "l2", 3, 0, 0⟩], [], exJoustOut⟩

/-- A contest in round 1 with one participating tribe and no posts yet. -/
def exJoustR1 : Joust := ⟨"j0001x", ["t1"], JState.round1, [], [], [], none⟩

/-- Store for the round-1 scenario: tribe `t1` led by agent `a1`. -/
def exDbR1 : Db := ⟨[⟨"a1", 0, 0, 0⟩], [⟨"t1", "a1", 0, 0, 0⟩], [("a1", "t1")], exJoustR1⟩

/-- A 241-character reply message that already contains the round token
`"#j0001"` and no link: one character beyond the 240-character limit. -/
def exLongMsg : String := String.mk ("#j0001 ".data ++ List.replicate 234 'a')

/-- Oracle replying to every round call with the over-length message. -/
def exOracleLong : Oracle :=
  ⟨fun _ _ => Except.ok ⟨exLongMsg, "A"⟩, fun _ => Except.ok ⟨"A"⟩, Except.error ()⟩

/-- A contest in round 1 with two tribes, the first of which already has a
recorded round-1 post. -/
def exJoustR1p : Joust :=
  ⟨"j0002x", ["t1", "t2"], JState.round1, [("t1", ⟨"#j000 done", none, "a1"⟩)], [], [], none⟩

/-- Store for the posted-tribe scenario: tribes `t1`/`t2` led by `a1`/`a2`. -/
def exDbR1p : Db :=
  ⟨[⟨"a1", 0, 0, 0⟩, ⟨"a2", 0, 0, 0⟩], [⟨"t1", "a1", 0, 0, 0⟩, ⟨"t2", "a2", 0, 0, 0⟩],
    [("a1", "t1"), ("a2", "t2")], exJoustR1p⟩

/-- Oracle whose round replies always fail and whose vote replies answer
`"A"` (for the abort-on-error and swallowed-vote-failure scenarios). -/
def exOracleErr : Oracle :=
  ⟨fun _ _ => Except.error (), fun _ => Except.error (), Except.error ()⟩

/-! ## Supporting lemmas and claim theorems -/

/-- Looking up a mapped association list built over the key list itself. -/
theorem alookup_map_self {β : Type} (f : String → β) :
    ∀ (l : List String) (t : String), t ∈ l → alookup (l.map (fun x => (x, f x))) t = some (f t) := by
  intro l
  induction l with
  | nil => intro t ht; cases ht
  | cons x xs ih =>
    intro t ht
    by_cases hx : x = t
    · subst hx
      simp [alookup, List.find?]
    · rcases List.mem_cons.mp ht with rfl | hmem
      · exact absurd rfl hx
      · simpa [alookup, List.find?, hx] using ih t hmem

theorem countP_eq_zero_of_none {α : Type} (l : List α) (p : α → Bool)
    (h : ∀ a ∈ l, p a = false) : l.countP p = 0 := by
  rw [List.countP_eq_zero]
  intro a ha
  simp [h a ha]

/-- The neutral tally of `tallyFor` counts exactly the spec-side neutral votes. -/
theorem tallyFor_neutral_eq (db : Db) (j : Joust) (votes : List (AgentId × Choice))
    (t : TribeId) :
    (tallyFor db j votes t).neutralVotes
      = votes.countP (fun av => decide (NeutralVote db j t av.1 av.2)) := by
  cases hc : tribeChoice j t with
  | none =>
    simp only [tallyFor, hc]
    symm
    apply countP_eq_zero_of_none
    intro av _
    simp [NeutralVote, hc]
  | some c =>
    simp only [tallyFor, hc, List.filter_filter, ← List.countP_eq_length_filter]
    apply List.countP_congr
    intro av _
    simp only [Bool.and_eq_true, decide_eq_true_eq]
    unfold NeutralVote
    rw [hc]
    constructor
    · rintro ⟨h1, h2⟩
      exact ⟨by rw [h2], h1⟩
    · rintro ⟨h1, h2⟩
      refine ⟨h2, ?_⟩
      injection h1 with h
      exact h.symm

/-- The snitch tally of `tallyFor` counts exactly the spec-side snitch votes. -/
theorem tallyFor_snitch_eq (db : Db) (j : Joust) (votes : List (AgentId × Choice))
    (t : TribeId) :
    (tallyFor db j votes t).snitchVotes
      = votes.countP (fun av => decide (SnitchVote db j t av.1 av.2)) := by
  cases hc : tribeChoice j t with
  | none =>
    simp only [tallyFor, hc]
    symm
    apply countP_eq_zero_of_none
    intro av _
    simp [SnitchVote, hc]
  | some c =>
    simp only [tallyFor, hc, List.filter_filter, ← List.countP_eq_length_filter]
    apply List.countP_congr
    intro av _
    simp only [Bool.and_eq_true, decide_eq_true_eq]
    unfold SnitchVote
    rw [hc]
    constructor
    · rintro ⟨⟨h1, h2, h3, h4⟩, h5⟩
      subst h5
      exact ⟨rfl, h1, h2, h3, h4⟩
    · rintro ⟨h0, h1, h2, h3, h4⟩
      have hvc : av.2 = c := by
        injection h0 with h
        exact h.symm
      subst hvc
      exact ⟨⟨h1, h2, h3, h4⟩, rfl⟩

/-- C1.  For every contest and vote set, each participating tribe's tally row
exists, its persuasion score is `neutralVotes + 2·snitchVotes`, the
neutral/snitch tallies count exactly the votes matching the spec's
definitions (which in particular exclude the tribe's own members, require the
vote to equal the tribe's recorded round-2 choice, and require the tribe to
have a recorded choice), a tribe with no recorded round-2 choice gets the
all-zero tally, and the persuasion score is non-negative. -/
theorem C1_persuasion_scoring (db : Db) (j : Joust) (votes : List (AgentId × Choice))
    (t : TribeId) (ht : t ∈ j.tribeIds) :
    ∃ tal, alookup (computePersuasion db j votes).tribeScores t = some tal ∧
      tal.persuasionScore = tal.neutralVotes + 2 * tal.snitchVotes ∧
      tal.neutralVotes = votes.countP (fun av => decide (NeutralVote db j t av.1 av.2)) ∧
      tal.snitchVotes = votes.countP (fun av => decide (SnitchVote db j t av.1 av.2)) ∧
      (tribeChoice j t = none → tal = ⟨0, 0, 0, 0⟩) ∧
      0 ≤ (tal.persuasionScore : Int) := by
  refine ⟨tallyFor db j votes t, ?_, ?_, tallyFor_neutral_eq db j votes t,
    tallyFor_snitch_eq db j votes t, ?_, by positivity⟩
  · exact alookup_map_self (tallyFor db j votes) j.tribeIds t ht
  · cases hc : tribeChoice j t <;> simp [tallyFor, hc]
  · intro hc
    simp [tallyFor, hc]

/-- Closed witness for C1 on the concrete two-tribe contest with one neutral
vote and one snitch vote. -/
theorem C1_persuasion_scoring_witness :
    ∃ tal, alookup (computePersuasion exDb2 exJoust2 exJoust2.votes).tribeScores "t1" = some tal ∧
      tal.persuasionScore = tal.neutralVotes + 2 * tal.snitchVotes ∧
      tal.neutralVotes = exJoust2.votes.countP
        (fun av => decide (NeutralVote exDb2 exJoust2 "t1" av.1 av.2)) ∧
      tal.snitchVotes = exJoust2.votes.countP
        (fun av => decide (SnitchVote exDb2 exJoust2 "t1" av.1 av.2)) ∧
      (tribeChoice exJoust2 "t1" = none → tal = ⟨0, 0, 0, 0⟩) ∧
      0 ≤ (tal.persuasionScore : Int) :=
  C1_persuasion_scoring exDb2 exJoust2 exJoust2.votes "t1" (by decide)

/-! ### Store-update lemmas -/

theorem find?_map_of_pred_eq {α : Type} (f : α → α) (p : α → Bool)
    (hp : ∀ x, p (f x) = p x) :
    ∀ l : List α, (l.map f).find? p = (l.find? p).map f := by
  intro l
  induction l with
  | nil => rfl
  | cons x xs ih =>
    cases h : p x with
    | true =>
      rw [List.map_cons, List.find?_cons_of_pos _ (by rw [hp, h]), List.find?_cons_of_pos _ h]
      rfl
    | false =>
      rw [List.map_cons, List.find?_cons_of_neg _ (by simp [hp, h]),
        List.find?_cons_of_neg _ (by simp [h]), ih]

theorem getTribe_applyTribeDelta (db : Db) (t : TribeId) (d : Int) (w : Bool) (t' : TribeId) :
    getTribe (applyTribeDelta db t d w) t'
      = (getTribe db t').map (fun tr => if tr.id = t then bumpTribe d w tr else tr) := by
  unfold getTribe applyTribeDelta
  exact find?_map_of_pred_eq _ _
    (fun tr => by by_cases h : tr.id = t <;> simp [bumpTribe, h]) _

theorem getAgent_applyAgentDelta (db : Db) (a : AgentId) (d : Int) (w : Bool) (a' : AgentId) :
    getAgent (applyAgentDelta db a d w) a'
      = (getAgent db a').map (fun ag => if ag.id = a then bumpAgent d w ag else ag) := by
  unfold getAgent applyAgentDelta
  exact find?_map_of_pred_eq _ _
    (fun ag => by by_cases h : ag.id = a <;> simp [bumpAgent, h]) _

theorem getTribe_id_of_some {db : Db} {t : TribeId} {tr : Tribe}
    (h : getTribe db t = some tr) : tr.id = t := by
  have := List.find?_some (by simpa [getTribe] using h)
  simpa using this

theorem getAgent_id_of_some {db : Db} {a : AgentId} {ag : Agent}
    (h : getAgent db a = some ag) : ag.id = a := by
  have := List.find?_some (by simpa [getAgent] using h)
  simpa using this

theorem getTribe_applyTribeDelta_ne (db : Db) (t : TribeId) (d : Int) (w : Bool)
    (t' : TribeId) (h : t' ≠ t) :
    getTribe (applyTribeDelta db t d w) t' = getTribe db t' := by
  rw [getTribe_applyTribeDelta]
  cases hf : getTribe db t' with
  | none => rfl
  | some tr => simp [getTribe_id_of_some hf, h]

theorem getTribe_applyTribeDelta_self (db : Db) (t : TribeId) (d : Int) (w : Bool) :
    getTribe (applyTribeDelta db t d w) t = (getTribe db t).map (bumpTribe d w) := by
  rw [getTribe_applyTribeDelta]
  cases hf : getTribe db t with
  | none => rfl
  | some tr => simp [getTribe_id_of_some hf]

theorem getAgent_applyAgentDelta_ne (db : Db) (a : AgentId) (d : Int) (w : Bool)
    (a' : AgentId) (h : a' ≠ a) :
    getAgent (applyAgentDelta db a d w) a' = getAgent db a' := by
  rw [getAgent_applyAgentDelta]
  cases hf : getAgent db a' with
  | none => rfl
  | some ag => simp [getAgent_id_of_some hf, h]

theorem getAgent_applyAgentDelta_self (db : Db) (a : AgentId) (d : Int) (w : Bool) :
    getAgent (applyAgentDelta db a d w) a = (getAgent db a).map (bumpAgent d w) := by
  rw [getAgent_applyAgentDelta]
  cases hf : getAgent db a with
  | none => rfl
  | some ag => simp [getAgent_id_of_some hf]

theorem applyMemberDeltas_tribes :
    ∀ (ms : List AgentId) (db : Db) (d : Int) (w : Bool),
      (applyMemberDeltas db ms d w).tribes = db.tribes := by
  intro ms
  induction ms with
  | nil => intro db d w; rfl
  | cons a rest ih =>
    intro db d w
    show (applyMemberDeltas (applyAgentDelta db a (agentShare d) w) rest d w).tribes = _
    rw [ih]
    rfl

theorem applyMemberDeltas_membership :
    ∀ (ms : List AgentId) (db : Db) (d : Int) (w : Bool),
      (applyMemberDeltas db ms d w).membership = db.membership := by
  intro ms
  induction ms with
  | nil => intro db d w; rfl
  | cons a rest ih =>
    intro db d w
    show (applyMemberDeltas (applyAgentDelta db a (agentShare d) w) rest d w).membership = _
    rw [ih]
    rfl

theorem applyMemberDeltas_joust :
    ∀ (ms : List AgentId) (db : Db) (d : Int) (w : Bool),
      (applyMemberDeltas db ms d w).joust = db.joust := by
  intro ms
  induction ms with
  | nil => intro db d w; rfl
  | cons a rest ih =>
    intro db d w
    show (applyMemberDeltas (applyAgentDelta db a (agentShare d) w) rest d w).joust = _
    rw [ih]
    rfl

theorem getAgent_applyMemberDeltas_not_mem :
    ∀ (ms : List AgentId) (db : Db) (d : Int) (w : Bool) (a : AgentId), a ∉ ms →
      getAgent (applyMemberDeltas db ms d w) a = getAgent db a := by
  intro ms
  induction ms with
  | nil => intro db d w a _; rfl
  | cons x rest ih =>
    intro db d w a ha
    have h1 : a ∉ rest := fun h => ha (List.mem_cons_of_mem _ h)
    have h2 : a ≠ x := fun h => ha (h ▸ List.mem_cons_self _ _)
    show getAgent (applyMemberDeltas (applyAgentDelta db x (agentShare d) w) rest d w) a = _
    rw [ih _ _ _ _ h1, getAgent_applyAgentDelta_ne _ _ _ _ _ h2]

theorem getAgent_applyMemberDeltas_mem :
    ∀ (ms : List AgentId) (db : Db) (d : Int) (w : Bool) (a : AgentId),
      ms.Nodup → a ∈ ms →
      getAgent (applyMemberDeltas db ms d w) a
        = (getAgent db a).map (bumpAgent (agentShare d) w) := by
  intro ms
  induction ms with
  | nil => intro db d w a _ ha; cases ha
  | cons x rest ih =>
    intro db d w a hnd ha
    show getAgent (applyMemberDeltas (applyAgentDelta db x (agentShare d) w) rest d w) a = _
    rcases List.mem_cons.mp ha with rfl | hmem
    · rw [getAgent_applyMemberDeltas_not_mem _ _ _ _ _ (List.nodup_cons.mp hnd).1,
        getAgent_applyAgentDelta_self]
    · have hne : a ≠ x := fun h => (List.nodup_cons.mp hnd).1 (h ▸ hmem)
      rw [ih _ _ _ _ (List.nodup_cons.mp hnd).2 hmem,
        getAgent_applyAgentDelta_ne _ _ _ _ _ hne]

theorem infamyStep_membership (j : Joust) (c : Computed) (w : Option TribeId)
    (wo : Option Choice) (d : Db) (t : TribeId) :
    (infamyStep j c w wo d t).membership = d.membership := by
  unfold infamyStep
  rw [applyMemberDeltas_membership]
  rfl

theorem infamyStep_joust (j : Joust) (c : Computed) (w : Option TribeId)
    (wo : Option Choice) (d : Db) (t : TribeId) :
    (infamyStep j c w wo d t).joust = d.joust := by
  unfold infamyStep
  rw [applyMemberDeltas_joust]
  rfl

theorem getTribe_infamyStep (j : Joust) (c : Computed) (w : Option TribeId)
    (wo : Option Choice) (d : Db) (t t' : TribeId) :
    getTribe (infamyStep j c w wo d t) t'
      = getTribe (applyTribeDelta d t (tribeDelta j c w wo t) (sideWins j wo t)) t' := by
  unfold infamyStep getTribe
  rw [applyMemberDeltas_tribes]

theorem getTribe_infamyFold_not_mem (j : Joust) (c : Computed) (w : Option TribeId)
    (wo : Option Choice) :
    ∀ (l : List TribeId) (db : Db) (t : TribeId), t ∉ l →
      getTribe (l.foldl (infamyStep j c w wo) db) t = getTribe db t := by
  intro l
  induction l with
  | nil => intro db t _; rfl
  | cons t' rest ih =>
    intro db t ht
    have h1 : t ∉ rest := fun h => ht (List.mem_cons_of_mem _ h)
    have h2 : t ≠ t' := fun h => ht (h ▸ List.mem_cons_self _ _)
    show getTribe (rest.foldl _ (infamyStep j c w wo db t')) t = _
    rw [ih _ _ h1, getTribe_infamyStep, getTribe_applyTribeDelta_ne _ _ _ _ _ h2]

theorem getTribe_infamyFold_mem (j : Joust) (c : Computed) (w : Option TribeId)
    (wo : Option Choice) :
    ∀ (l : List TribeId) (db : Db) (t : TribeId), l.Nodup → t ∈ l →
      getTribe (l.foldl (infamyStep j c w wo) db) t
        = (getTribe db t).map (bumpTribe (tribeDelta j c w wo t) (sideWins j wo t)) := by
  intro l
  induction l with
  | nil => intro db t _ ht; cases ht
  | cons t' rest ih =>
    intro db t hnd ht
    show getTribe (rest.foldl _ (infamyStep j c w wo db t')) t = _
    rcases List.mem_cons.mp ht with rfl | hmem
    · rw [getTribe_infamyFold_not_mem _ _ _ _ _ _ _ (List.nodup_cons.mp hnd).1,
        getTribe_infamyStep, getTribe_applyTribeDelta_self]
    · have hne : t ≠ t' := fun h => (List.nodup_cons.mp hnd).1 (h ▸ hmem)
      rw [ih _ _ (List.nodup_cons.mp hnd).2 hmem, getTribe_infamyStep,
        getTribe_applyTribeDelta_ne _ _ _ _ _ hne]

/-- `sideWins` is the condition "a winning option exists and the tribe's
choice equals it". -/
theorem sideWins_iff (j : Joust) (wo : Option Choice) (t : TribeId) :
    sideWins j wo t = true ↔ wo ≠ none ∧ tribeChoice j t = wo := by
  unfold sideWins
  cases wo with
  | none => simp
  | some w =>
    cases hc : tribeChoice j t with
    | none => simp [hc]
    | some c =>
      simp only [decide_eq_true_eq]
      constructor
      · rintro rfl
        exact ⟨by simp, rfl⟩
      · rintro ⟨-, h⟩
        injection h

/-- C2.  In every resolved contest, each participating tribe's results row
records `deltaInfamy = base + winnerBonus + persuasionScore` with `base`
+6/−6 by whether the tribe's choice equals the effective winning option when
one exists and +2/−2 by designated-winner status otherwise, and
`winnerBonus = 8` exactly for the designated winner; the tribe's stored
counters record a win iff its choice equals the winning option (independent
of being the overall winner) and its stored infamy moves by exactly
`deltaInfamy`.  In the two-tribe scenario (T1 chose A, T2 chose B, one
neutral A vote, one T2-member A vote) T1's delta is 17 and T2's is −6. -/
theorem C2_infamy_delta (db : Db) (j : Joust) (computed : Computed) (forced : Option TribeId)
    (t : TribeId) (tr : Tribe) (hnd : j.tribeIds.Nodup) (ht : t ∈ j.tribeIds)
    (htr : getTribe db t = some tr) :
    (∃ r, alookup (applyInfamy db j computed forced).1.tribeResults t = some r ∧
      r.deltaInfamy =
        (match (applyInfamy db j computed forced).1.winningOption with
         | some w => if tribeChoice j t = some w then 6 else -6
         | none =>
           if (applyInfamy db j computed forced).1.winnerTribeId = some t then 2 else -2)
        + (if (applyInfamy db j computed forced).1.winnerTribeId = some t then 8 else 0)
        + (r.persuasionScore : Int) ∧
      (∃ tr', getTribe (applyInfamy db j computed forced).2 t = some tr' ∧
        tr'.infamy = tr.infamy + r.deltaInfamy ∧
        tr'.wins = tr.wins +
          (if (applyInfamy db j computed forced).1.winningOption ≠ none ∧
              tribeChoice j t = (applyInfamy db j computed forced).1.winningOption
           then 1 else 0) ∧
        tr'.losses = tr.losses +
          (if (applyInfamy db j computed forced).1.winningOption ≠ none ∧
              tribeChoice j t = (applyInfamy db j computed forced).1.winningOption
           then 0 else 1))) ∧
    (alookup (applyInfamy exDb2 exJoust2
        (computePersuasion exDb2 exJoust2 exJoust2.votes) none).1.tribeResults "t1").map
      (·.deltaInfamy) = some 17 ∧
    (alookup (applyInfamy exDb2 exJoust2
        (computePersuasion exDb2 exJoust2 exJoust2.votes) none).1.tribeResults "t2").map
      (·.deltaInfamy) = some (-6) := by
  refine ⟨?_, by decide, by decide⟩
  obtain ⟨w, wo⟩ : Option TribeId × Option Choice := selectWinner db j computed forced
  have hw : (applyInfamy db j computed forced).1.winnerTribeId
      = (selectWinner db j computed forced).1 := rfl
  have hwo : (applyInfamy db j computed forced).1.winningOption
      = (selectWinner db j computed forced).2 := rfl
  refine ⟨tribeOutcome j computed (selectWinner db j computed forced).1
    (selectWinner db j computed forced).2 t, ?_, ?_, ?_⟩
  · exact alookup_map_self _ j.tribeIds t ht
  · rw [hw, hwo]
    unfold tribeOutcome tribeDelta
    cases hsel : (selectWinner db j computed forced).2 with
    | none => rfl
    | some wv =>
      by_cases hside : sideWins j (some wv) t = true
      · have hch : tribeChoice j t = some wv := by
          rcases (sideWins_iff j (some wv) t).mp hside with ⟨-, h⟩
          exact h
        simp only [hside, hch, if_true, if_pos rfl]
      · have hch : ¬ tribeChoice j t = some wv := by
          intro h
          exact hside ((sideWins_iff j (some wv) t).mpr ⟨by simp, h⟩)
        have hsideF : sideWins j (some wv) t = false := by
          cases h : sideWins j (some wv) t
          · rfl
          · exact absurd h hside
        simp only [hsideF, hch, if_false, Bool.false_eq_true, if_neg hch]
  · have hfold : (applyInfamy db j computed forced).2
        = j.tribeIds.foldl
            (infamyStep j computed (selectWinner db j computed forced).1
              (selectWinner db j computed forced).2) db := rfl
    refine ⟨bumpTribe
        (tribeDelta j computed (selectWinner db j computed forced).1
          (selectWinner db j computed forced).2 t)
        (sideWins j (selectWinner db j computed forced).2 t) tr, ?_, ?_, ?_, ?_⟩
    · rw [hfold, getTribe_infamyFold_mem j computed _ _ j.tribeIds db t hnd ht, htr]
      rfl
    · rfl
    · rw [hwo]
      unfold bumpTribe
      by_cases hside : sideWins j (selectWinner db j computed forced).2 t = true
      · rw [hside, if_pos ((sideWins_iff _ _ _).mp hside)]
        simp
      · have hsideF : sideWins j (selectWinner db j computed forced).2 t = false := by
          cases h : sideWins j (selectWinner db j computed forced).2 t
          · rfl
          · exact absurd h hside
        rw [hsideF, if_neg (fun hc => hside ((sideWins_iff _ _ _).mpr hc))]
        simp
    · rw [hwo]
      unfold bumpTribe
      by_cases hside : sideWins j (selectWinner db j computed forced).2 t = true
      · rw [hside, if_pos ((sideWins_iff _ _ _).mp hside)]
        simp
      · have hsideF : sideWins j (selectWinner db j computed forced).2 t = false := by
          cases h : sideWins j (selectWinner db j computed forced).2 t
          · rfl
          · exact absurd h hside
        rw [hsideF, if_neg (fun hc => hside ((sideWins_iff _ _ _).mpr hc))]
        simp

/-- Closed witness for C2 on the two-tribe scenario, at tribe `t1`. -/
theorem C2_infamy_delta_witness :
    exJoust2.tribeIds.Nodup ∧ "t1" ∈ exJoust2.tribeIds ∧
      getTribe exDb2 "t1" = some ⟨"t1", "l1", 0, 0, 0⟩ ∧
      ((∃ r, alookup (applyInfamy exDb2 exJoust2
          (computePersuasion exDb2 exJoust2 exJoust2.votes) none).1.tribeResults "t1"
            = some r ∧
        r.deltaInfamy =
          (match (applyInfamy exDb2 exJoust2
              (computePersuasion exDb2 exJoust2 exJoust2.votes) none).1.winningOption with
           | some w => if tribeChoice exJoust2 "t1" = some w then 6 else -6
           | none =>
             if (applyInfamy exDb2 exJoust2
                  (computePersuasion exDb2 exJoust2 exJoust2.votes) none).1.winnerTribeId
                = some "t1" then 2 else -2)
          + (if (applyInfamy exDb2 exJoust2
                (computePersuasion exDb2 exJoust2 exJoust2.votes) none).1.winnerTribeId
              = some "t1" then 8 else 0)
          + (r.persuasionScore : Int) ∧
        (∃ tr', getTribe (applyInfamy exDb2 exJoust2
            (computePersuasion exDb2 exJoust2 exJoust2.votes) none).2 "t1" = some tr' ∧
          tr'.infamy = (0 : Int) + r.deltaInfamy ∧
          tr'.wins = 0 +
            (if (applyInfamy exDb2 exJoust2
                  (computePersuasion exDb2 exJoust2 exJoust2.votes) none).1.winningOption
                ≠ none ∧
                tribeChoice exJoust2 "t1" = (applyInfamy exDb2 exJoust2
                  (computePersuasion exDb2 exJoust2 exJoust2.votes) none).1.winningOption
             then 1 else 0) ∧
          tr'.losses = 0 +
            (if (applyInfamy exDb2 exJoust2
                  (computePersuasion exDb2 exJoust2 exJoust2.votes) none).1.winningOption
                ≠ none ∧
                tribeChoice exJoust2 "t1" = (applyInfamy exDb2 exJoust2
                  (computePersuasion exDb2 exJoust2 exJoust2.votes) none).1.winningOption
             then 0 else 1))) ∧
      (alookup (applyInfamy exDb2 exJoust2
          (computePersuasion exDb2 exJoust2 exJoust2.votes) none).1.tribeResults "t1").map
        (·.deltaInfamy) = some 17 ∧
      (alookup (applyInfamy exDb2 exJoust2
          (computePersuasion exDb2 exJoust2 exJoust2.votes) none).1.tribeResults "t2").map
        (·.deltaInfamy) = some (-6)) :=
  ⟨by decide, by decide, by decide,
    C2_infamy_delta exDb2 exJoust2 (computePersuasion exDb2 exJoust2 exJoust2.votes) none
      "t1" ⟨"t1", "l1", 0, 0, 0⟩ (by decide) (by decide) (by decide)⟩


/-! ### Agent-share lemmas (C8) -/

/-- `jsRoundScaled` is `⌊x + 1/2⌋` on the exact value `n / 2^w`. -/
theorem jsRoundScaled_eq_floor (n : ℤ) (w : ℕ) :
    jsRoundScaled n w = ⌊(n : ℚ) / 2 ^ w + 1 / 2⌋ := by
  have h : (n : ℚ) / 2 ^ w + 1 / 2 = ((2 * n + 2 ^ w : ℤ) : ℚ) / ((2 ^ (w + 1) : ℕ) : ℚ) := by
    push_cast
    field_simp
    ring
  rw [h, Rat.floor_intCast_div_natCast]
  unfold jsRoundScaled
  rw [Int.fdiv_eq_ediv _ (by positivity)]
  norm_cast

/-- Round half away from zero of `n / 20` as integer arithmetic. -/
theorem roundHalfAway_div20 (n : ℤ) :
    roundHalfAway ((n : ℚ) / 20)
      = if n < 0 then -((2 * (-n) + 20) / 40) else (2 * n + 20) / 40 := by
  unfold roundHalfAway
  by_cases hn : n < 0
  · have hq : ((n : ℚ) / 20 < 0) := by
      apply div_neg_of_neg_of_pos _ (by norm_num)
      exact_mod_cast hn
    rw [if_pos hq, if_pos hn]
    have h : -((n : ℚ) / 20) + 1 / 2 = ((2 * (-n) + 20 : ℤ) : ℚ) / ((40 : ℕ) : ℚ) := by
      push_cast
      ring
    rw [h, Rat.floor_intCast_div_natCast]
    norm_num
  · have hq : ¬ ((n : ℚ) / 20 < 0) := by
      push_neg at hn ⊢
      apply div_nonneg _ (by norm_num)
      exact_mod_cast hn
    rw [if_neg hq, if_neg hn]
    have h : (n : ℚ) / 20 + 1 / 2 = ((2 * n + 20 : ℤ) : ℚ) / ((40 : ℕ) : ℚ) := by
      push_cast
      ring
    rw [h, Rat.floor_intCast_div_natCast]
    norm_num

theorem mem_listTribeMemberIds {db : Db} {a : AgentId} {t : TribeId} :
    a ∈ listTribeMemberIds db t ↔ (a, t) ∈ db.membership := by
  unfold listTribeMemberIds
  simp only [List.mem_map, List.mem_filter, decide_eq_true_eq]
  constructor
  · rintro ⟨⟨a', t'⟩, ⟨hm, ht'⟩, ha'⟩
    cases ha'
    cases ht'
    exact hm
  · intro hm
    exact ⟨(a, t), ⟨hm, rfl⟩, rfl⟩

theorem membership_key_unique :
    ∀ (l : List (AgentId × TribeId)) (a : AgentId) (t1 t2 : TribeId),
      (l.map Prod.fst).Nodup → (a, t1) ∈ l → (a, t2) ∈ l → t1 = t2 := by
  intro l
  induction l with
  | nil => intro a t1 t2 _ h1 _; cases h1
  | cons p rest ih =>
    intro a t1 t2 hnd h1 h2
    have hhd : p.1 ∉ rest.map Prod.fst := (List.nodup_cons.mp hnd).1
    rcases List.mem_cons.mp h1 with rfl | h1m
    · rcases List.mem_cons.mp h2 with h2e | h2m
      · have hc := (Prod.mk.injEq a t2 a t1).mp h2e
        exact hc.2.symm
      · exact absurd (List.mem_map.mpr ⟨(a, t2), h2m, rfl⟩) hhd
    · rcases List.mem_cons.mp h2 with rfl | h2m
      · exact absurd (List.mem_map.mpr ⟨(a, t1), h1m, rfl⟩) hhd
      · exact ih a t1 t2 (List.nodup_cons.mp hnd).2 h1m h2m

theorem listTribeMemberIds_nodup {db : Db} (t : TribeId)
    (hnd : (db.membership.map Prod.fst).Nodup) : (listTribeMemberIds db t).Nodup := by
  unfold listTribeMemberIds
  exact hnd.sublist ((List.filter_sublist _).map Prod.fst)

theorem getAgent_infamyStep_not_mem (j : Joust) (c : Computed) (w : Option TribeId)
    (wo : Option Choice) (d : Db) (t' : TribeId) (a : AgentId)
    (ha : a ∉ listTribeMemberIds d t') :
    getAgent (infamyStep j c w wo d t') a = getAgent d a := by
  simp only [infamyStep]
  have hl : listTribeMemberIds (applyTribeDelta d t' (tribeDelta j c w wo t')
      (sideWins j wo t')) t' = listTribeMemberIds d t' := rfl
  rw [hl, getAgent_applyMemberDeltas_not_mem _ _ _ _ _ ha]
  rfl

theorem getAgent_infamyStep_mem (j : Joust) (c : Computed) (w : Option TribeId)
    (wo : Option Choice) (d : Db) (t' : TribeId) (a : AgentId)
    (hnd : (d.membership.map Prod.fst).Nodup) (ha : a ∈ listTribeMemberIds d t') :
    getAgent (infamyStep j c w wo d t') a
      = (getAgent d a).map
          (bumpAgent (agentShare (tribeDelta j c w wo t')) (sideWins j wo t')) := by
  simp only [infamyStep]
  have hl : listTribeMemberIds (applyTribeDelta d t' (tribeDelta j c w wo t')
      (sideWins j wo t')) t' = listTribeMemberIds d t' := rfl
  rw [hl, getAgent_applyMemberDeltas_mem _ _ _ _ _ (listTribeMemberIds_nodup t' hnd) ha]
  rfl

theorem infamyFold_membership (j : Joust) (c : Computed) (w : Option TribeId)
    (wo : Option Choice) :
    ∀ (l : List TribeId) (db : Db),
      (l.foldl (infamyStep j c w wo) db).membership = db.membership := by
  intro l
  induction l with
  | nil => intro db; rfl
  | cons t' rest ih =>
    intro db
    show (rest.foldl _ (infamyStep j c w wo db t')).membership = _
    rw [ih, infamyStep_membership]

theorem getAgent_infamyFold_untouched (j : Joust) (c : Computed) (w : Option TribeId)
    (wo : Option Choice) :
    ∀ (l : List TribeId) (db : Db) (a : AgentId),
      (∀ t'' ∈ l, a ∉ listTribeMemberIds db t'') →
      getAgent (l.foldl (infamyStep j c w wo) db) a = getAgent db a := by
  intro l
  induction l with
  | nil => intro db a _; rfl
  | cons t' rest ih =>
    intro db a hnotin
    show getAgent (rest.foldl _ (infamyStep j c w wo db t')) a = _
    have hstep : (infamyStep j c w wo db t').membership = db.membership :=
      infamyStep_membership j c w wo db t'
    have hlist : ∀ t'' ∈ rest, a ∉ listTribeMemberIds (infamyStep j c w wo db t') t'' := by
      intro t'' htt
      unfold listTribeMemberIds
      rw [hstep]
      exact hnotin t'' (List.mem_cons_of_mem _ htt)
    rw [ih _ _ hlist, getAgent_infamyStep_not_mem _ _ _ _ _ _ _
      (hnotin t' (List.mem_cons_self _ _))]

theorem getAgent_infamyFold (j : Joust) (c : Computed) (w : Option TribeId)
    (wo : Option Choice) :
    ∀ (l : List TribeId) (db : Db) (a : AgentId) (t : TribeId),
      (db.membership.map Prod.fst).Nodup → (a, t) ∈ db.membership →
      l.Nodup → t ∈ l →
      getAgent (l.foldl (infamyStep j c w wo) db) a
        = (getAgent db a).map
            (bumpAgent (agentShare (tribeDelta j c w wo t)) (sideWins j wo t)) := by
  intro l
  induction l with
  | nil => intro db a t _ _ _ ht; cases ht
  | cons t' rest ih =>
    intro db a t hndM hmem hndl htl
    show getAgent (rest.foldl _ (infamyStep j c w wo db t')) a = _
    rcases List.mem_cons.mp htl with rfl | hmemrest
    · have hnotin : ∀ t'' ∈ rest, a ∉ listTribeMemberIds (infamyStep j c w wo db t) t'' := by
        intro t'' htt hin
        have hm2 : (a, t'') ∈ db.membership := by
          rw [← infamyStep_membership j c w wo db t]
          exact mem_listTribeMemberIds.mp hin
        have : t = t'' := membership_key_unique db.membership a t t'' hndM hmem hm2
        exact (List.nodup_cons.mp hndl).1 (this ▸ htt)
      rw [getAgent_infamyFold_untouched j c w wo rest _ a hnotin,
        getAgent_infamyStep_mem j c w wo db t a hndM (mem_listTribeMemberIds.mpr hmem)]
    · have hne : t ≠ t' := fun h => (List.nodup_cons.mp hndl).1 (h ▸ hmemrest)
      have hnotin : a ∉ listTribeMemberIds db t' := by
        intro hin
        exact hne (membership_key_unique db.membership a t t' hndM hmem
          (mem_listTribeMemberIds.mp hin))
      have hstep : (infamyStep j c w wo db t').membership = db.membership :=
        infamyStep_membership j c w wo db t'
      rw [ih (infamyStep j c w wo db t') a t (by rw [hstep]; exact hndM)
          (by rw [hstep]; exact hmem) (List.nodup_cons.mp hndl).2 hmemrest,
        getAgent_infamyStep_not_mem _ _ _ _ _ _ _ hnotin]

set_option maxRecDepth 40000 in
/-- C8 (amended).  Each member agent of a participating tribe with delta `d`
receives exactly `Math.round(d * 0.35)` computed in binary64 arithmetic
(`agentShare`), with win/loss mirroring the tribe's outcome.  This agrees
with round-half-away-from-zero of the exact product `0.35·d` for every delta
in `[-6, 89]`, but not beyond: at `d = 90` the code yields `31` while exact
rounding yields `32`. -/
theorem C8_member_share (db : Db) (j : Joust) (computed : Computed) (forced : Option TribeId)
    (t : TribeId) (a : AgentId) (ag : Agent)
    (hndT : j.tribeIds.Nodup) (ht : t ∈ j.tribeIds)
    (hndM : (db.membership.map Prod.fst).Nodup) (hmem : (a, t) ∈ db.membership)
    (hag : getAgent db a = some ag) :
    (∃ r, alookup (applyInfamy db j computed forced).1.tribeResults t = some r ∧
      ∃ ag', getAgent (applyInfamy db j computed forced).2 a = some ag' ∧
        ag'.infamy = ag.infamy + agentShare r.deltaInfamy ∧
        ag'.wins = ag.wins +
          (if (applyInfamy db j computed forced).1.winningOption ≠ none ∧
              tribeChoice j t = (applyInfamy db j computed forced).1.winningOption
           then 1 else 0) ∧
        ag'.losses = ag.losses +
          (if (applyInfamy db j computed forced).1.winningOption ≠ none ∧
              tribeChoice j t = (applyInfamy db j computed forced).1.winningOption
           then 0 else 1)) ∧
    (∀ d : ℤ, -6 ≤ d → d ≤ 89 → agentShare d = roundHalfAway (((7 * d : ℤ) : ℚ) / 20)) ∧
    agentShare 90 = 31 ∧ roundHalfAway (((7 * 90 : ℤ) : ℚ) / 20) = 32 := by
  refine ⟨?_, ?_, by decide, ?_⟩
  · have hwo : (applyInfamy db j computed forced).1.winningOption
        = (selectWinner db j computed forced).2 := rfl
    refine ⟨tribeOutcome j computed (selectWinner db j computed forced).1
      (selectWinner db j computed forced).2 t, alookup_map_self _ j.tribeIds t ht, ?_⟩
    refine ⟨bumpAgent
        (agentShare (tribeDelta j computed (selectWinner db j computed forced).1
          (selectWinner db j computed forced).2 t))
        (sideWins j (selectWinner db j computed forced).2 t) ag, ?_, rfl, ?_, ?_⟩
    · have hfold : (applyInfamy db j computed forced).2
          = j.tribeIds.foldl
              (infamyStep j computed (selectWinner db j computed forced).1
                (selectWinner db j computed forced).2) db := rfl
      rw [hfold, getAgent_infamyFold _ _ _ _ j.tribeIds db a t hndM hmem hndT ht, hag]
      rfl
    · rw [hwo]
      unfold bumpAgent
      by_cases hside : sideWins j (selectWinner db j computed forced).2 t = true
      · rw [hside, if_pos ((sideWins_iff _ _ _).mp hside)]
        simp
      · have hsideF : sideWins j (selectWinner db j computed forced).2 t = false := by
          cases h : sideWins j (selectWinner db j computed forced).2 t
          · rfl
          · exact absurd h hside
        rw [hsideF, if_neg (fun hc => hside ((sideWins_iff _ _ _).mpr hc))]
        simp
    · rw [hwo]
      unfold bumpAgent
      by_cases hside : sideWins j (selectWinner db j computed forced).2 t = true
      · rw [hside, if_pos ((sideWins_iff _ _ _).mp hside)]
        simp
      · have hsideF : sideWins j (selectWinner db j computed forced).2 t = false := by
          cases h : sideWins j (selectWinner db j computed forced).2 t
          · rfl
          · exact absurd h hside
        rw [hsideF, if_neg (fun hc => hside ((sideWins_iff _ _ _).mpr hc))]
        simp
  · intro d h1 h2
    rw [roundHalfAway_div20]
    have hall : ((List.range 96).all (fun i => decide (agentShare ((i : ℤ) - 6)
        = if 7 * ((i : ℤ) - 6) < 0 then -((2 * (-(7 * ((i : ℤ) - 6))) + 20) / 40)
          else (2 * (7 * ((i : ℤ) - 6)) + 20) / 40))) = true := by decide
    have hi : (d + 6).toNat ∈ List.range 96 := by
      rw [List.mem_range]
      omega
    have hinst := List.all_eq_true.mp hall _ hi
    have hd : (((d + 6).toNat : ℕ) : ℤ) - 6 = d := by omega
    rw [hd] at hinst
    exact of_decide_eq_true hinst
  · have h : ((7 * 90 : ℤ) : ℚ) / 20 = (((630 : ℤ) : ℚ)) / 20 := by norm_num
    rw [h, roundHalfAway_div20]
    decide

/-- Closed witness for C8 on the delta-90 fixture at member `m1` of `t1`. -/
theorem C8_member_share_witness :
    exJoust76.tribeIds.Nodup ∧ "t1" ∈ exJoust76.tribeIds ∧
      (exDb76.membership.map Prod.fst).Nodup ∧ ("m1", "t1") ∈ exDb76.membership ∧
      getAgent exDb76 "m1" = some ⟨"m1", 100, 0, 0⟩ ∧
      ((∃ r, alookup (applyInfamy exDb76 exJoust76
          (computePersuasion exDb76 exJoust76 exJoust76.votes) none).1.tribeResults "t1"
            = some r ∧
        ∃ ag', getAgent (applyInfamy exDb76 exJoust76
            (computePersuasion exDb76 exJoust76 exJoust76.votes) none).2 "m1" = some ag' ∧
          ag'.infamy = (100 : Int) + agentShare r.deltaInfamy ∧
          ag'.wins = 0 +
            (if (applyInfamy exDb76 exJoust76
                  (computePersuasion exDb76 exJoust76 exJoust76.votes) none).1.winningOption
                ≠ none ∧
                tribeChoice exJoust76 "t1" = (applyInfamy exDb76 exJoust76
                  (computePersuasion exDb76 exJoust76 exJoust76.votes) none).1.winningOption
             then 1 else 0) ∧
          ag'.losses = 0 +
            (if (applyInfamy exDb76 exJoust76
                  (computePersuasion exDb76 exJoust76 exJoust76.votes) none).1.winningOption
                ≠ none ∧
                tribeChoice exJoust76 "t1" = (applyInfamy exDb76 exJoust76
                  (computePersuasion exDb76 exJoust76 exJoust76.votes) none).1.winningOption
             then 0 else 1)) ∧
      (∀ d : ℤ, -6 ≤ d → d ≤ 89 →
        agentShare d = roundHalfAway (((7 * d : ℤ) : ℚ) / 20)) ∧
      agentShare 90 = 31 ∧ roundHalfAway (((7 * 90 : ℤ) : ℚ) / 20) = 32) :=
  ⟨by decide, by decide, by decide, by decide, by decide,
    C8_member_share exDb76 exJoust76
      (computePersuasion exDb76 exJoust76 exJoust76.votes) none "t1" "m1" ⟨"m1", 100, 0, 0⟩
      (by decide) (by decide) (by decide) (by decide) (by decide)⟩

/-- Counterexample for C8 as stated: tribe `t1` earns delta 90, exact
round-half-away of `90 × 0.35 = 31.5` is 32, yet member `m1` receives 31
(binary64 `90 * 0.35` is `31.499999999999996…`, and `Math.round` of it 31). -/
theorem C8_roundHalfAway_counterexample :
    (alookup (applyInfamy exDb76 exJoust76
        (computePersuasion exDb76 exJoust76 exJoust76.votes) none).1.tribeResults "t1").map
      (·.deltaInfamy) = some 90 ∧
    (getAgent (applyInfamy exDb76 exJoust76
        (computePersuasion exDb76 exJoust76 exJoust76.votes) none).2 "m1").map
      (·.infamy) = some 131 ∧
    roundHalfAway (((90 : ℤ) : ℚ) * (7 / 20)) = 32 ∧
    ¬ (getAgent (applyInfamy exDb76 exJoust76
        (computePersuasion exDb76 exJoust76 exJoust76.votes) none).2 "m1").map
      (·.infamy) = some (100 + roundHalfAway (((90 : ℤ) : ℚ) * (7 / 20))) := by
  have h32 : roundHalfAway (((90 : ℤ) : ℚ) * (7 / 20)) = 32 := by
    have h : ((90 : ℤ) : ℚ) * (7 / 20) = (((630 : ℤ) : ℚ)) / 20 := by norm_num
    rw [h, roundHalfAway_div20]
    decide
  refine ⟨by decide, by decide, h32, ?_⟩
  rw [h32]
  decide


/-! ### Sorting lemmas (C3) -/

theorem insertCmp_perm {α : Type} (cmp : α → α → Ordering) (x : α) :
    ∀ l : List α, (insertCmp cmp x l).Perm (x :: l) := by
  intro l
  induction l with
  | nil => exact List.Perm.refl _
  | cons y ys ih =>
    unfold insertCmp
    by_cases h : cmp x y = Ordering.gt
    · rw [if_pos h]
      exact (ih.cons y).trans (List.Perm.swap x y ys)
    · rw [if_neg h]

theorem sortCmp_perm {α : Type} (cmp : α → α → Ordering) :
    ∀ l : List α, (sortCmp cmp l).Perm l := by
  intro l
  induction l with
  | nil => exact List.Perm.refl _
  | cons x xs ih =>
    exact (insertCmp_perm cmp x (sortCmp cmp xs)).trans (ih.cons x)

theorem insertCmp_pairwise {α : Type} (cmp : α → α → Ordering) [Batteries.TransCmp cmp]
    (x : α) :
    ∀ l : List α, l.Pairwise (fun a b => cmp a b ≠ Ordering.gt) →
      (insertCmp cmp x l).Pairwise (fun a b => cmp a b ≠ Ordering.gt) := by
  intro l
  induction l with
  | nil =>
    intro _
    simp [insertCmp]
  | cons y ys ih =>
    intro hl
    rcases List.pairwise_cons.mp hl with ⟨hy, hys⟩
    unfold insertCmp
    by_cases h : cmp x y = Ordering.gt
    · rw [if_pos h]
      refine List.pairwise_cons.mpr ⟨?_, ih hys⟩
      intro z hz
      rcases List.mem_cons.mp ((insertCmp_perm cmp x ys).mem_iff.mp hz) with rfl | hz'
      · rw [Batteries.OrientedCmp.cmp_eq_gt.mp h]
        simp
      · exact hy z hz'
    · rw [if_neg h]
      refine List.pairwise_cons.mpr ⟨?_, hl⟩
      intro z hz
      rcases List.mem_cons.mp hz with rfl | hz'
      · exact h
      · exact Batteries.TransCmp.le_trans h (hy z hz')

theorem sortCmp_pairwise {α : Type} (cmp : α → α → Ordering) [Batteries.TransCmp cmp] :
    ∀ l : List α, (sortCmp cmp l).Pairwise (fun a b => cmp a b ≠ Ordering.gt) := by
  intro l
  induction l with
  | nil => exact List.Pairwise.nil
  | cons x xs ih => exact insertCmp_pairwise cmp x _ ih

/-- The head of the comparator sort ranks no worse than any element. -/
theorem sortCmp_head_min {α : Type} (cmp : α → α → Ordering) [Batteries.TransCmp cmp]
    (l : List α) (hd : α) (tl : List α) (h : sortCmp cmp l = hd :: tl) :
    ∀ y ∈ l, cmp hd y ≠ Ordering.gt := by
  intro y hy
  have hmem : y ∈ hd :: tl := by
    rw [← h]
    exact (sortCmp_perm cmp l).mem_iff.mpr hy
  rcases List.mem_cons.mp hmem with rfl | htl
  · have hr : cmp y y = Ordering.eq := Batteries.OrientedCmp.cmp_refl
    rw [hr]
    simp
  · have hp := sortCmp_pairwise cmp l
    rw [h] at hp
    exact (List.pairwise_cons.mp hp).1 y htl

theorem sortCmp_head_mem {α : Type} (cmp : α → α → Ordering)
    (l : List α) (hd : α) (tl : List α) (h : sortCmp cmp l = hd :: tl) : hd ∈ l := by
  have : hd ∈ sortCmp cmp l := by
    rw [h]
    exact List.mem_cons_self _ _
  exact (sortCmp_perm cmp l).mem_iff.mp this

/-- `cmpRank` returns `eq` only on identical tribe ids. -/
theorem cmpRank_eq_ids {x y : RankMeta} (h : cmpRank x y = Ordering.eq) :
    x.tribeId = y.tribeId := by
  unfold cmpRank at h
  cases h1 : compare y.persuasionScore x.persuasionScore <;> rw [h1] at h
  · simp [Ordering.then] at h
  · cases h2 : compare y.infamy x.infamy <;> rw [h2] at h
    · simp [Ordering.then] at h
    · simp only [Ordering.then] at h
      exact compare_eq_iff_eq.mp h
    · simp [Ordering.then] at h
  · simp [Ordering.then] at h

/-- C3.  On an exact vote tie the computed winning option is `none`, and the
(rules-mode) resolution designates as winner the top of the rank-all
fallback: a participating tribe that strictly precedes every other
participating tribe in the order "persuasion score descending, then infamy
descending, then tribe id ascending" — in particular the winner exists (no
crash) and is uniquely determined by the scores, infamy values and ids. -/
theorem C3_tie_rank_fallback (db : Db) (j : Joust) (votes : List (AgentId × Choice))
    (hne : j.tribeIds ≠ [])
    (htie : (computePersuasion db j votes).totalsA = (computePersuasion db j votes).totalsB) :
    (computePersuasion db j votes).winningOption = none ∧
    ∃ wm, (applyInfamy db j (computePersuasion db j votes) none).1.winnerTribeId = some wm ∧
      wm ∈ j.tribeIds ∧
      ∀ t ∈ j.tribeIds, t ≠ wm →
        cmpRank
          ⟨wm, scoreOf (computePersuasion db j votes) wm, infamyOf db wm⟩
          ⟨t, scoreOf (computePersuasion db j votes) t, infamyOf db t⟩ = Ordering.lt := by
  have hwo : (computePersuasion db j votes).winningOption = none := by
    simp only [computePersuasion] at htie ⊢
    rw [if_pos htie]
  refine ⟨hwo, ?_⟩
  have helig : eligibleWinner db j (computePersuasion db j votes) = none := by
    unfold eligibleWinner
    rw [hwo]
  obtain ⟨top, tl, htop⟩ : ∃ top tl,
      sortCmp cmpRank (j.tribeIds.map (fun tid =>
        RankMeta.mk tid (scoreOf (computePersuasion db j votes) tid) (infamyOf db tid)))
        = top :: tl := by
    cases hr : sortCmp cmpRank (j.tribeIds.map (fun tid =>
        RankMeta.mk tid (scoreOf (computePersuasion db j votes) tid) (infamyOf db tid))) with
    | nil =>
      have hlen := (sortCmp_perm cmpRank (j.tribeIds.map (fun tid =>
        RankMeta.mk tid (scoreOf (computePersuasion db j votes) tid)
          (infamyOf db tid)))).length_eq
      rw [hr, List.length_map] at hlen
      cases hj : j.tribeIds with
      | nil => exact absurd hj hne
      | cons a b =>
        rw [hj] at hlen
        simp at hlen
    | cons a b => exact ⟨a, b, rfl⟩
  have hwin : (applyInfamy db j (computePersuasion db j votes) none).1.winnerTribeId
      = some top.tribeId := by
    show (selectWinnerUnforced db j (computePersuasion db j votes)).1 = _
    unfold selectWinnerUnforced
    rw [helig]
    show (rankFallback db j (computePersuasion db j votes)).1 = _
    simp only [rankFallback]
    rw [htop]
    rfl
  obtain ⟨t0, ht0, hmk⟩ : ∃ t0 ∈ j.tribeIds,
      RankMeta.mk t0 (scoreOf (computePersuasion db j votes) t0) (infamyOf db t0) = top :=
    List.mem_map.mp (sortCmp_head_mem cmpRank _ top tl htop)
  have htid : top.tribeId = t0 := by rw [← hmk]
  have htopmeta : RankMeta.mk top.tribeId
      (scoreOf (computePersuasion db j votes) top.tribeId) (infamyOf db top.tribeId) = top := by
    rw [htid]
    exact hmk
  refine ⟨top.tribeId, hwin, htid ▸ ht0, ?_⟩
  intro t htmem htne
  have hymem : RankMeta.mk t (scoreOf (computePersuasion db j votes) t) (infamyOf db t)
      ∈ j.tribeIds.map (fun tid =>
        RankMeta.mk tid (scoreOf (computePersuasion db j votes) tid) (infamyOf db tid)) :=
    List.mem_map.mpr ⟨t, htmem, rfl⟩
  have hngt := sortCmp_head_min cmpRank _ top tl htop _ hymem
  rw [htopmeta]
  cases hcmp : cmpRank top
      ⟨t, scoreOf (computePersuasion db j votes) t, infamyOf db t⟩ with
  | lt => rfl
  | eq =>
    have := cmpRank_eq_ids hcmp
    exact absurd this.symm htne
  | gt => exact absurd hcmp hngt

/-- Closed witness for C3 on the 1–1 tie fixture. -/
theorem C3_tie_rank_fallback_witness :
    exJoustTie.tribeIds ≠ [] ∧
      (computePersuasion exDbTie exJoustTie exJoustTie.votes).totalsA
        = (computePersuasion exDbTie exJoustTie exJoustTie.votes).totalsB ∧
      ((computePersuasion exDbTie exJoustTie exJoustTie.votes).winningOption = none ∧
      ∃ wm, (applyInfamy exDbTie exJoustTie
          (computePersuasion exDbTie exJoustTie exJoustTie.votes) none).1.winnerTribeId
            = some wm ∧
        wm ∈ exJoustTie.tribeIds ∧
        ∀ t ∈ exJoustTie.tribeIds, t ≠ wm →
          cmpRank
            ⟨wm, scoreOf (computePersuasion exDbTie exJoustTie exJoustTie.votes) wm,
              infamyOf exDbTie wm⟩
            ⟨t, scoreOf (computePersuasion exDbTie exJoustTie exJoustTie.votes) t,
              infamyOf exDbTie t⟩ = Ordering.lt) :=
  ⟨by decide, by decide,
    C3_tie_rank_fallback exDbTie exJoustTie exJoustTie.votes (by decide) (by decide)⟩


/-! ### Migration lemmas (C6) -/

theorem alookup_mem {β : Type} {l : List (String × β)} {k : String} {v : β}
    (h : alookup l k = some v) : (k, v) ∈ l := by
  unfold alookup at h
  cases hf : l.find? (fun p => decide (p.1 = k)) with
  | none => rw [hf] at h; cases h
  | some p =>
    rw [hf] at h
    have hp := List.find?_some hf
    have hm := List.mem_of_find?_eq_some hf
    have h1 : p.1 = k := by simpa using hp
    have h2 : p.2 = v := by simpa using h
    have : p = (k, v) := by
      cases p
      simp_all
    exact this ▸ hm

theorem find?_filter_of_imp {α : Type} (p q : α → Bool) (himp : ∀ x, p x = true → q x = true) :
    ∀ l : List α, (l.filter q).find? p = l.find? p := by
  intro l
  induction l with
  | nil => rfl
  | cons x xs ih =>
    cases hq : q x with
    | true =>
      rw [List.filter_cons_of_pos hq]
      cases hp : p x with
      | true => rw [List.find?_cons_of_pos _ hp, List.find?_cons_of_pos _ hp]
      | false => rw [List.find?_cons_of_neg _ (by simp [hp]), List.find?_cons_of_neg _ (by simp [hp]), ih]
    | false =>
      have hp : p x = false := by
        cases hpx : p x
        · rfl
        · rw [himp x hpx] at hq; cases hq
      rw [List.filter_cons_of_neg (by simp [hq]), List.find?_cons_of_neg _ (by simp [hp]), ih]

theorem getAgentTribeId_transfer_self (db : Db) (a : AgentId) (w : TribeId) :
    getAgentTribeId (transferAgentToTribe db a w) a = some w := by
  unfold getAgentTribeId transferAgentToTribe alookup
  rw [List.find?_append]
  have hnone : (db.membership.filter (fun p => decide (¬ p.1 = a))).find?
      (fun p => decide (p.1 = a)) = none := by
    rw [List.find?_eq_none]
    intro x hx
    have := (List.mem_filter.mp hx).2
    simp at this ⊢
    exact this
  rw [hnone]
  simp [List.find?]

theorem getAgentTribeId_transfer_ne (db : Db) (a : AgentId) (w : TribeId) (a' : AgentId)
    (h : a' ≠ a) :
    getAgentTribeId (transferAgentToTribe db a w) a' = getAgentTribeId db a' := by
  unfold getAgentTribeId transferAgentToTribe alookup
  rw [List.find?_append]
  rw [find?_filter_of_imp _ _ (fun x hx => by
    simp at hx ⊢
    rw [hx]
    exact fun hc => h hc)]
  cases hf : db.membership.find? (fun p => decide (p.1 = a')) with
  | none => simp [List.find?, Ne.symm h]
  | some p => rfl

theorem mem_transfer_of_ne (db : Db) (a : AgentId) (w : TribeId) {b : AgentId} {t : TribeId}
    (hne : b ≠ a) (hm : (b, t) ∈ db.membership) :
    (b, t) ∈ (transferAgentToTribe db a w).membership := by
  unfold transferAgentToTribe
  refine List.mem_append.mpr (Or.inl ?_)
  exact List.mem_filter.mpr ⟨hm, by simpa using hne⟩

theorem transfer_keys_nodup (db : Db) (a : AgentId) (w : TribeId)
    (h : (db.membership.map Prod.fst).Nodup) :
    ((transferAgentToTribe db a w).membership.map Prod.fst).Nodup := by
  unfold transferAgentToTribe
  rw [List.map_append]
  refine List.Nodup.append ?_ (by simp) ?_
  · exact h.sublist ((List.filter_sublist _).map Prod.fst)
  · intro x hx hx'
    have hxa : x = a := by simpa using hx'
    rcases List.mem_map.mp hx with ⟨p, hp, hpx⟩
    have := (List.mem_filter.mp hp).2
    rw [← hpx] at hxa
    simp [hxa] at this

theorem migrateTribe_joust (w : TribeId) :
    ∀ (ms : List AgentId) (db : Db) (wm : List AgentId),
      ((migrateTribe w ms db wm).1.joust = db.joust ∧
       (migrateTribe w ms db wm).1.agents = db.agents ∧
       (migrateTribe w ms db wm).1.tribes = db.tribes) := by
  intro ms
  induction ms with
  | nil => intro db wm; exact ⟨rfl, rfl, rfl⟩
  | cons x rest ih =>
    intro db wm
    unfold migrateTribe
    by_cases hx : x ∈ wm
    · rw [if_pos hx]
      exact ih db wm
    · rw [if_neg hx]
      exact ih (transferAgentToTribe db x w) (wm ++ [x])

theorem migrateTribe_keys_nodup (w : TribeId) :
    ∀ (ms : List AgentId) (db : Db) (wm : List AgentId),
      (db.membership.map Prod.fst).Nodup →
      ((migrateTribe w ms db wm).1.membership.map Prod.fst).Nodup := by
  intro ms
  induction ms with
  | nil => intro db wm h; exact h
  | cons x rest ih =>
    intro db wm h
    unfold migrateTribe
    by_cases hx : x ∈ wm
    · rw [if_pos hx]
      exact ih db wm h
    · rw [if_neg hx]
      exact ih _ _ (transfer_keys_nodup db x w h)

theorem migrateTribe_getAgentTribeId_not_mem (w : TribeId) :
    ∀ (ms : List AgentId) (db : Db) (wm : List AgentId) (a : AgentId), a ∉ ms →
      getAgentTribeId (migrateTribe w ms db wm).1 a = getAgentTribeId db a := by
  intro ms
  induction ms with
  | nil => intro db wm a _; rfl
  | cons x rest ih =>
    intro db wm a ha
    have h1 : a ∉ rest := fun h => ha (List.mem_cons_of_mem _ h)
    have h2 : a ≠ x := fun h => ha (h ▸ List.mem_cons_self _ _)
    unfold migrateTribe
    by_cases hx : x ∈ wm
    · rw [if_pos hx]
      exact ih db wm a h1
    · rw [if_neg hx]
      show getAgentTribeId (migrateTribe w rest (transferAgentToTribe db x w) (wm ++ [x])).1 a = _
      rw [ih _ _ a h1, getAgentTribeId_transfer_ne db x w a h2]

theorem migrateTribe_mem_of_not_mem (w : TribeId) :
    ∀ (ms : List AgentId) (db : Db) (wm : List AgentId) {a : AgentId} {t : TribeId},
      a ∉ ms → (a, t) ∈ db.membership → (a, t) ∈ (migrateTribe w ms db wm).1.membership := by
  intro ms
  induction ms with
  | nil => intro db wm a t _ hm; exact hm
  | cons x rest ih =>
    intro db wm a t ha hm
    have h1 : a ∉ rest := fun h => ha (List.mem_cons_of_mem _ h)
    have h2 : a ≠ x := fun h => ha (h ▸ List.mem_cons_self _ _)
    unfold migrateTribe
    by_cases hx : x ∈ wm
    · rw [if_pos hx]
      exact ih db wm h1 hm
    · rw [if_neg hx]
      show (a, t) ∈ (migrateTribe w rest (transferAgentToTribe db x w) (wm ++ [x])).1.membership
      exact ih _ _ h1 (mem_transfer_of_ne db x w h2 hm)

theorem migrateTribe_wm_sub (w : TribeId) :
    ∀ (ms : List AgentId) (db : Db) (wm : List AgentId) (x : AgentId),
      x ∈ (migrateTribe w ms db wm).2.1 → x ∈ wm ∨ x ∈ ms := by
  intro ms
  induction ms with
  | nil => intro db wm x hx; exact Or.inl hx
  | cons y rest ih =>
    intro db wm x hx
    unfold migrateTribe at hx
    by_cases hy : y ∈ wm
    · rw [if_pos hy] at hx
      rcases ih db wm x hx with h | h
      · exact Or.inl h
      · exact Or.inr (List.mem_cons_of_mem _ h)
    · rw [if_neg hy] at hx
      rcases ih _ _ x hx with h | h
      · rcases List.mem_append.mp h with h' | h'
        · exact Or.inl h'
        · exact Or.inr (by simpa using List.mem_cons.mpr (Or.inl (by simpa using h')))
      · exact Or.inr (List.mem_cons_of_mem _ h)

theorem migrateTribe_moves (w : TribeId) :
    ∀ (ms : List AgentId) (db : Db) (wm : List AgentId) (a : AgentId),
      ms.Nodup → a ∈ ms → a ∉ wm →
      getAgentTribeId (migrateTribe w ms db wm).1 a = some w := by
  intro ms
  induction ms with
  | nil => intro db wm a _ ha _; cases ha
  | cons x rest ih =>
    intro db wm a hnd ha hwm
    unfold migrateTribe
    rcases List.mem_cons.mp ha with rfl | hmem
    · rw [if_neg hwm]
      show getAgentTribeId (migrateTribe w rest (transferAgentToTribe db a w) (wm ++ [a])).1 a = _
      rw [migrateTribe_getAgentTribeId_not_mem w rest _ _ a (List.nodup_cons.mp hnd).1,
        getAgentTribeId_transfer_self]
    · have hne : a ≠ x := fun h => (List.nodup_cons.mp hnd).1 (h ▸ hmem)
      by_cases hx : x ∈ wm
      · rw [if_pos hx]
        exact ih db wm a (List.nodup_cons.mp hnd).2 hmem hwm
      · rw [if_neg hx]
        refine ih _ _ a (List.nodup_cons.mp hnd).2 hmem ?_
        intro hc
        rcases List.mem_append.mp hc with h' | h'
        · exact hwm h'
        · exact hne (by simpa using h')

theorem migratePass_preserves (w : TribeId) :
    ∀ (l : List TribeId) (db : Db) (wm : List AgentId) (m : Nat) (acc : List TribeMove)
      (a : AgentId),
      (db.membership.map Prod.fst).Nodup →
      getAgentTribeId db a = some w →
      getAgentTribeId (migratePass w l db wm m acc).1 a = some w := by
  intro l
  induction l with
  | nil => intro db wm m acc a _ h; exact h
  | cons t1 rest ih =>
    intro db wm m acc a hnd h
    unfold migratePass
    by_cases ht1 : t1 = w
    · rw [if_pos ht1]
      exact ih db wm m acc a hnd h
    · rw [if_neg ht1]
      have hnot : a ∉ listTribeMemberIds db t1 := by
        intro hin
        have hm1 : (a, t1) ∈ db.membership := mem_listTribeMemberIds.mp hin
        have hm2 : (a, w) ∈ db.membership := alookup_mem h
        exact ht1 (membership_key_unique db.membership a t1 w hnd hm1 hm2)
      refine ih _ _ _ _ a (migrateTribe_keys_nodup w _ db wm hnd) ?_
      rw [migrateTribe_getAgentTribeId_not_mem w _ db wm a hnot]
      exact h

theorem migratePass_moves (w : TribeId) :
    ∀ (l : List TribeId) (db : Db) (wm : List AgentId) (m : Nat) (acc : List TribeMove)
      (a : AgentId) (t0 : TribeId),
      (db.membership.map Prod.fst).Nodup → l.Nodup →
      (a, t0) ∈ db.membership → t0 ∈ l → t0 ≠ w → a ∉ wm →
      getAgentTribeId (migratePass w l db wm m acc).1 a = some w := by
  intro l
  induction l with
  | nil => intro db wm m acc a t0 _ _ _ ht0 _ _; cases ht0
  | cons t1 rest ih =>
    intro db wm m acc a t0 hndK hndL hmem ht0 hne hwm
    unfold migratePass
    by_cases ht1 : t1 = w
    · rw [if_pos ht1]
      have ht0r : t0 ∈ rest := by
        rcases List.mem_cons.mp ht0 with rfl | h
        · exact absurd ht1 hne
        · exact h
      exact ih db wm m acc a t0 hndK (List.nodup_cons.mp hndL).2 hmem ht0r hne hwm
    · rw [if_neg ht1]
      rcases List.mem_cons.mp ht0 with rfl | ht0r
      · -- the tribe containing `a` is processed now
        have hin : a ∈ listTribeMemberIds db t0 := mem_listTribeMemberIds.mpr hmem
        have hnodupMs : (listTribeMemberIds db t0).Nodup := listTribeMemberIds_nodup t0 hndK
        refine migratePass_preserves w rest _ _ _ _ a
          (migrateTribe_keys_nodup w _ db wm hndK) ?_
        exact migrateTribe_moves w _ db wm a hnodupMs hin hwm
      · -- `a`'s tribe comes later
        have hne1 : t0 ≠ t1 := fun h => (List.nodup_cons.mp hndL).1 (h ▸ ht0r)
        have hnot : a ∉ listTribeMemberIds db t1 := by
          intro hin
          exact hne1 (membership_key_unique db.membership a t0 t1 hndK hmem
            (mem_listTribeMemberIds.mp hin))
        refine ih _ _ _ _ a t0 (migrateTribe_keys_nodup w _ db wm hndK)
          (List.nodup_cons.mp hndL).2
          (migrateTribe_mem_of_not_mem w _ db wm hnot hmem) ht0r hne ?_
        intro hc
        rcases migrateTribe_wm_sub w _ db wm a hc with h' | h'
        · exact hwm h'
        · exact hnot h'

theorem migratePass_sum (w : TribeId) :
    ∀ (l : List TribeId) (db : Db) (wm : List AgentId) (m : Nat) (acc : List TribeMove),
      m = (acc.map (·.movedCount)).sum →
      (migratePass w l db wm m acc).2.1
        = (((migratePass w l db wm m acc).2.2).map (·.movedCount)).sum := by
  intro l
  induction l with
  | nil => intro db wm m acc h; exact h
  | cons t1 rest ih =>
    intro db wm m acc h
    unfold migratePass
    by_cases ht1 : t1 = w
    · rw [if_pos ht1]
      exact ih db wm m acc h
    · rw [if_neg ht1]
      by_cases hmc : 0 < (migrateTribe w (listTribeMemberIds db t1) db wm).2.2
      · rw [if_pos hmc]
        refine ih _ _ _ _ ?_
        rw [List.map_append, List.sum_append, ← h]
        simp
      · rw [if_neg hmc]
        refine ih _ _ _ _ ?_
        have : (migrateTribe w (listTribeMemberIds db t1) db wm).2.2 = 0 := by omega
        rw [this, h]
        omega

/-- C6.  Migration is a no-op without a winner; with a designated winner the
record's total equals the sum of the per-source-tribe counts, every agent of
another participating tribe ends up in the winner's membership, agents
already in the winner stay there, and the three-tribe scenario moves 4
agents, 2 from `t2` and 2 from `t3`. -/
theorem C6_migration (db : Db) (j : Joust) (w : TribeId) (a : AgentId) (t0 : TribeId)
    (hndK : (db.membership.map Prod.fst).Nodup) (hndL : j.tribeIds.Nodup)
    (hmem : (a, t0) ∈ db.membership) (ht0 : t0 ∈ j.tribeIds) (hne : t0 ≠ w) :
    migrateParticipantsToWinner db j none
      = ({ winnerTribeId := none, movedAgents := 0, movedFromTribes := [] }, db) ∧
    ((migrateParticipantsToWinner db j (some w)).1.movedFromTribes.map (·.movedCount)).sum
      = (migrateParticipantsToWinner db j (some w)).1.movedAgents ∧
    getAgentTribeId (migrateParticipantsToWinner db j (some w)).2 a = some w ∧
    (∀ b, getAgentTribeId db b = some w →
      getAgentTribeId (migrateParticipantsToWinner db j (some w)).2 b = some w) ∧
    (migrateParticipantsToWinner exDb3 exJoust3 (some "t1")).1
      = ⟨some "t1", 4, [⟨"t2", 2⟩, ⟨"t3", 2⟩]⟩ := by
  refine ⟨rfl, ?_, ?_, ?_, by decide⟩
  · exact (migratePass_sum w j.tribeIds db (listTribeMemberIds db w) 0 [] rfl).symm
  · have hawm : a ∉ listTribeMemberIds db w := by
      intro hin
      exact hne (membership_key_unique db.membership a t0 w hndK hmem
        (mem_listTribeMemberIds.mp hin))
    exact migratePass_moves w j.tribeIds db _ 0 [] a t0 hndK hndL hmem ht0 hne hawm
  · intro b hb
    exact migratePass_preserves w j.tribeIds db _ 0 [] b hndK hb

/-- Closed witness for C6 on the three-tribe conquest fixture, at agent `b1`
of tribe `t2`. -/
theorem C6_migration_witness :
    (exDb3.membership.map Prod.fst).Nodup ∧ exJoust3.tribeIds.Nodup ∧
      ("b1", "t2") ∈ exDb3.membership ∧ "t2" ∈ exJoust3.tribeIds ∧ "t2" ≠ "t1" ∧
      (migrateParticipantsToWinner exDb3 exJoust3 none
        = ({ winnerTribeId := none, movedAgents := 0, movedFromTribes := [] }, exDb3) ∧
      ((migrateParticipantsToWinner exDb3 exJoust3 (some "t1")).1.movedFromTribes.map
        (·.movedCount)).sum
        = (migrateParticipantsToWinner exDb3 exJoust3 (some "t1")).1.movedAgents ∧
      getAgentTribeId (migrateParticipantsToWinner exDb3 exJoust3 (some "t1")).2 "b1"
        = some "t1" ∧
      (∀ b, getAgentTribeId exDb3 b = some "t1" →
        getAgentTribeId (migrateParticipantsToWinner exDb3 exJoust3 (some "t1")).2 b
          = some "t1") ∧
      (migrateParticipantsToWinner exDb3 exJoust3 (some "t1")).1
        = ⟨some "t1", 4, [⟨"t2", 2⟩, ⟨"t3", 2⟩]⟩) :=
  ⟨by decide, by decide, by decide, by decide, by decide,
    C6_migration exDb3 exJoust3 "t1" "b1" "t2"
      (by decide) (by decide) (by decide) (by decide) (by decide)⟩


/-! ### Decision-strategy theorems (C7) -/

/-- Counterexample for C7 as stated: with a successful external call naming
the unknown tribe `"ghost"`, the heuristic's winner `t1` is substituted, but
the decision's `fallback` flag is `false` (its source stays `"openai"`), not
`true` as claimed. -/
theorem C7_fallback_flag_counterexample :
    ¬ ("ghost" ∈ exJoustDone.tribeIds) ∧
    (heuristicAnalyzeJoust exDbDone exJoustDone).winnerTribeId = some "t1" ∧
    (decideWinnerTribe "ai" true (Except.ok exParsedBad) exDbDone exJoustDone).winnerTribeId
      = some "t1" ∧
    (decideWinnerTribe "ai" true (Except.ok exParsedBad) exDbDone exJoustDone).decision.source
      = "openai" ∧
    (decideWinnerTribe "ai" true (Except.ok exParsedBad) exDbDone exJoustDone).decision.fallback
      = false := by
  refine ⟨by decide, by decide, by decide, by decide, by decide⟩

/-- C7 (amended).  In `ai` mode with a key configured, when the external
analysis call succeeds but names a winner id that is not one of the
contest's (existing) tribes, the heuristic's winner is substituted — but the
decision's source remains `"openai"` and its `fallback` flag is `false`: the
flag marks transport/parse failures and the missing-key path, not winner
substitution. -/
theorem C7_invalid_winner_substitution (db : Db) (j : Joust) (parsed : ParsedAnalysis)
    (hinvalid : ∀ tr ∈ tribesOf db j, ¬ tr.id = parsed.winnerTribeId) :
    (decideWinnerTribe "ai" true (Except.ok parsed) db j).winnerTribeId
      = (heuristicAnalyzeJoust db j).winnerTribeId ∧
    (decideWinnerTribe "ai" true (Except.ok parsed) db j).decision.source = "openai" ∧
    (decideWinnerTribe "ai" true (Except.ok parsed) db j).decision.fallback = false := by
  have hany : (tribesOf db j).any (fun tr => decide (tr.id = parsed.winnerTribeId)) = false := by
    rw [List.any_eq_false]
    intro tr htr
    simp [hinvalid tr htr]
  have hd : decideWinnerTribe "ai" true (Except.ok parsed) db j
      = { winnerTribeId := (openAiAnalyzeJoust db j parsed).winnerTribeId
          decision :=
            { mode := "ai", source := (openAiAnalyzeJoust db j parsed).source
              confidence := some (openAiAnalyzeJoust db j parsed).confidence
              fallback := decide (¬ (openAiAnalyzeJoust db j parsed).source = "openai") } } := by
    unfold decideWinnerTribe
    rw [if_neg (by simp), if_neg (by simp)]
  have hwin : (openAiAnalyzeJoust db j parsed).winnerTribeId
      = (heuristicAnalyzeJoust db j).winnerTribeId := by
    simp only [openAiAnalyzeJoust]
    rw [hany]
    simp
  have hsrc : (openAiAnalyzeJoust db j parsed).source = "openai" := rfl
  rw [hd]
  refine ⟨hwin, hsrc, ?_⟩
  show decide (¬ (openAiAnalyzeJoust db j parsed).source = "openai") = false
  rw [hsrc]
  decide

/-- Closed witness for the amended C7 on the finished-contest fixture. -/
theorem C7_invalid_winner_substitution_witness :
    (∀ tr ∈ tribesOf exDbDone exJoustDone, ¬ tr.id = exParsedBad.winnerTribeId) ∧
    ((decideWinnerTribe "ai" true (Except.ok exParsedBad) exDbDone exJoustDone).winnerTribeId
      = (heuristicAnalyzeJoust exDbDone exJoustDone).winnerTribeId ∧
    (decideWinnerTribe "ai" true (Except.ok exParsedBad) exDbDone exJoustDone).decision.source
      = "openai" ∧
    (decideWinnerTribe "ai" true (Except.ok exParsedBad) exDbDone
      exJoustDone).decision.fallback = false) :=
  ⟨by decide, C7_invalid_winner_substitution exDbDone exJoustDone exParsedBad (by decide)⟩


/-! ### Vote-phase polling lemmas (C9, C10) -/

theorem votePass_calls_of_not_skipped (oracle : Oracle) (scope : String)
    (initialVotes : List (AgentId × Choice)) (tribeIds : List TribeId) :
    ∀ (l : List (Agent × Option TribeId)) (db : Db) (ag : Agent) (tid : Option TribeId),
      (ag, tid) ∈ l →
      (decide (scope = "arena") &&
        (match tid with
         | some t => decide (t ∉ tribeIds)
         | none => false)) = false →
      alookup initialVotes ag.id = none →
      CallEvent.voteCall ag.id ∈ (votePass oracle scope initialVotes tribeIds l db).2 := by
  intro l
  induction l with
  | nil => intro db ag tid h _ _; cases h
  | cons p rest ih =>
    intro db ag tid hmem hskip hnv
    obtain ⟨ag', tid'⟩ := p
    rcases List.mem_cons.mp hmem with heq | hmem'
    · obtain ⟨rfl, rfl⟩ := Prod.mk.injEq _ _ _ _ |>.mp heq
      simp only [votePass, hskip, hnv, Bool.false_eq_true, if_false]
      cases ho : oracle.voteReply ag.id with
      | error e =>
        simp only [ho]
        exact List.mem_cons_self _ _
      | ok reply =>
        simp only [ho]
        exact List.mem_cons_self _ _
    · clear hmem
      simp only [votePass]
      by_cases h1 : (decide (scope = "arena") &&
          (match tid' with
           | some t => decide (t ∉ tribeIds)
           | none => false)) = true
      · rw [h1]
        simp only [if_true]
        exact ih db ag tid hmem' hskip hnv
      · rw [Bool.not_eq_true] at h1
        rw [h1]
        simp only [Bool.false_eq_true, if_false]
        by_cases h2 : (alookup initialVotes ag'.id).isSome = true
        · rw [h2]
          simp only [if_true]
          exact ih db ag tid hmem' hskip hnv
        · rw [Bool.not_eq_true] at h2
          rw [h2]
          simp only [Bool.false_eq_true, if_false]
          cases ho : oracle.voteReply ag'.id with
          | error e =>
            simp only [ho]
            exact List.mem_cons_of_mem _ (ih db ag tid hmem' hskip hnv)
          | ok reply =>
            simp only [ho]
            exact List.mem_cons_of_mem _ (ih _ ag tid hmem' hskip hnv)

theorem votePass_not_called (oracle : Oracle) (initialVotes : List (AgentId × Choice))
    (tribeIds : List TribeId) (a : AgentId) :
    ∀ (l : List (Agent × Option TribeId)) (db : Db),
      (∀ p ∈ l, p.1.id = a →
        (match p.2 with
         | some t => decide (t ∉ tribeIds)
         | none => false) = true) →
      CallEvent.voteCall a ∉ (votePass oracle "arena" initialVotes tribeIds l db).2 := by
  intro l
  induction l with
  | nil => intro db _ h; cases h
  | cons p rest ih =>
    intro db hcond
    obtain ⟨ag', tid'⟩ := p
    have hrest : ∀ p ∈ rest, p.1.id = a →
        (match p.2 with
         | some t => decide (t ∉ tribeIds)
         | none => false) = true :=
      fun p hp => hcond p (List.mem_cons_of_mem _ hp)
    have hhd := hcond (ag', tid') (List.mem_cons_self _ _)
    clear hcond
    unfold votePass
    by_cases hid : ag'.id = a
    · cases tid' with
      | none =>
        have hm := hhd hid
        simp at hm
      | some t =>
        have hm : decide (t ∉ tribeIds) = true := hhd hid
        rw [if_pos (by simp [hm])]
        exact ih db hrest
    · clear hhd
      by_cases h1 : (decide (("arena" : String) = "arena") &&
          (match tid' with
           | some t => decide (t ∉ tribeIds)
           | none => false)) = true
      · rw [if_pos h1]
        exact ih db hrest
      · rw [if_neg h1]
        by_cases h2 : (alookup initialVotes ag'.id).isSome = true
        · rw [if_pos h2]
          exact ih db hrest
        · rw [if_neg h2]
          cases ho : oracle.voteReply ag'.id with
          | error e =>
            intro hmem2
            rcases List.mem_cons.mp hmem2 with heq | hmem'
            · exact hid (by injection heq with h; exact h.symm)
            · exact ih db hrest hmem'
          | ok reply =>
            intro hmem2
            rcases List.mem_cons.mp hmem2 with heq | hmem'
            · exact hid (by injection heq with h; exact h.symm)
            · exact ih _ hrest hmem'

theorem stepJoust_vote_calls (mode : String) (hasKey : Bool) (scope : String)
    (oracle : Oracle) (db : Db) (hstate : db.joust.state = JState.vote) :
    (stepJoust mode hasKey scope oracle db).calls
      = (votePass oracle scope db.joust.votes db.joust.tribeIds (listAgentsWithTribe db) db).2 := by
  unfold stepJoust
  rw [hstate]

/-- Counterexample for C9 as stated: with no scope configuration the parsed
scope is `'arena'`, and advancing the vote state then skips the (unvoted)
agent `out1`, a member of the non-participating tribe `t9`: no call is made
and no vote is recorded — the poll is not unrestricted by default. -/
theorem C9_default_scope_counterexample :
    voterScopeOf none = "arena" ∧
    getAgentTribeId exDbOut "out1" = some "t9" ∧
    ¬ ("t9" ∈ exDbOut.joust.tribeIds) ∧
    alookup exDbOut.joust.votes "out1" = none ∧
    (stepJoust "rules" false (voterScopeOf none) exOracleA exDbOut).calls = [] ∧
    alookup (stepJoust "rules" false (voterScopeOf none) exOracleA exDbOut).db.joust.votes
      "out1" = none := by
  refine ⟨by decide, by decide, by decide, by decide, by decide, by decide⟩

/-- C9 (amended).  The voter-scope configuration defaults to the *restricted*
`'arena'` scope (absent or empty configuration), and `'all'` must be set
explicitly for an unrestricted poll: under `'all'` every known agent without
a recorded vote is polled regardless of tribe membership, while under
`'arena'` an agent listed only with a tribe outside the contest is never
polled. -/
theorem C9_voter_scope (mode : String) (hasKey : Bool) (oracle : Oracle) (db : Db)
    (ag : Agent) (tid : Option TribeId) (a : AgentId)
    (hstate : db.joust.state = JState.vote) :
    voterScopeOf none = "arena" ∧
    voterScopeOf (some "all") = "all" ∧
    ((ag, tid) ∈ listAgentsWithTribe db → alookup db.joust.votes ag.id = none →
      CallEvent.voteCall ag.id ∈ (stepJoust mode hasKey "all" oracle db).calls) ∧
    ((∀ p ∈ listAgentsWithTribe db, p.1.id = a →
        (match p.2 with
         | some t => decide (t ∉ db.joust.tribeIds)
         | none => false) = true) →
      CallEvent.voteCall a ∉ (stepJoust mode hasKey "arena" oracle db).calls) := by
  refine ⟨by decide, by decide, ?_, ?_⟩
  · intro hmem hnv
    rw [stepJoust_vote_calls mode hasKey "all" oracle db hstate]
    exact votePass_calls_of_not_skipped oracle "all" db.joust.votes db.joust.tribeIds
      (listAgentsWithTribe db) db ag tid hmem (by cases tid <;> simp) hnv
  · intro hcond
    rw [stepJoust_vote_calls mode hasKey "arena" oracle db hstate]
    exact votePass_not_called oracle db.joust.votes db.joust.tribeIds a
      (listAgentsWithTribe db) db hcond

/-- Closed witness for the amended C9 on the outside-tribe fixture. -/
theorem C9_voter_scope_witness :
    exDbOut.joust.state = JState.vote ∧
    (voterScopeOf none = "arena" ∧
    voterScopeOf (some "all") = "all" ∧
    ((⟨"out1", 100, 0, 0⟩, some "t9") ∈ listAgentsWithTribe exDbOut →
      alookup exDbOut.joust.votes "out1" = none →
      CallEvent.voteCall "out1" ∈ (stepJoust "rules" false "all" exOracleA exDbOut).calls) ∧
    ((∀ p ∈ listAgentsWithTribe exDbOut, p.1.id = "out1" →
        (match p.2 with
         | some t => decide (t ∉ exDbOut.joust.tribeIds)
         | none => false) = true) →
      CallEvent.voteCall "out1" ∉ (stepJoust "rules" false "arena" exOracleA exDbOut).calls)) :=
  ⟨by decide,
    C9_voter_scope "rules" false exOracleA exDbOut ⟨"out1", 100, 0, 0⟩ (some "t9") "out1"
      (by decide)⟩

/-- C10.  Under the restricted `'arena'` scope an agent belonging to no tribe
is always polled during the vote phase (unless it already voted), and so is
any member of one of the contest's tribes: the skip applies only to agents
whose tribe id is set and outside the contest. -/
theorem C10_tribeless_polled (mode : String) (hasKey : Bool) (oracle : Oracle) (db : Db)
    (ag : Agent) (hstate : db.joust.state = JState.vote)
    (hmem : ag ∈ db.agents) (htid : getAgentTribeId db ag.id = none)
    (hnv : alookup db.joust.votes ag.id = none) :
    CallEvent.voteCall ag.id ∈ (stepJoust mode hasKey "arena" oracle db).calls ∧
    (∀ (ag' : Agent) (t : TribeId), ag' ∈ db.agents → getAgentTribeId db ag'.id = some t →
      t ∈ db.joust.tribeIds → alookup db.joust.votes ag'.id = none →
      CallEvent.voteCall ag'.id ∈ (stepJoust mode hasKey "arena" oracle db).calls) := by
  constructor
  · rw [stepJoust_vote_calls mode hasKey "arena" oracle db hstate]
    refine votePass_calls_of_not_skipped oracle "arena" db.joust.votes db.joust.tribeIds
      (listAgentsWithTribe db) db ag none ?_ (by simp) hnv
    exact List.mem_map.mpr ⟨ag, hmem, by rw [htid]⟩
  · intro ag' t hmem' htid' htin hnv'
    rw [stepJoust_vote_calls mode hasKey "arena" oracle db hstate]
    refine votePass_calls_of_not_skipped oracle "arena" db.joust.votes db.joust.tribeIds
      (listAgentsWithTribe db) db ag' (some t) ?_ (by simp [htin]) hnv'
    exact List.mem_map.mpr ⟨ag', hmem', by rw [htid']⟩

/-- Closed witness for C10 on the tribeless-agent fixture. -/
theorem C10_tribeless_polled_witness :
    exDbPoll.joust.state = JState.vote ∧
    (CallEvent.voteCall "n1" ∈ (stepJoust "rules" false "arena" exOracleA exDbPoll).calls ∧
    (∀ (ag' : Agent) (t : TribeId), ag' ∈ exDbPoll.agents →
      getAgentTribeId exDbPoll ag'.id = some t →
      t ∈ exDbPoll.joust.tribeIds → alookup exDbPoll.joust.votes ag'.id = none →
      CallEvent.voteCall ag'.id ∈ (stepJoust "rules" false "arena" exOracleA exDbPoll).calls)) :=
  ⟨by decide,
    C10_tribeless_polled "rules" false exOracleA exDbPoll ⟨"n1", 100, 0, 0⟩
      (by decide) (by decide) (by decide) (by decide)⟩

/-- Upserting a key then looking it up yields the new value. -/
theorem alookup_aupsert_self {β : Type} (l : List (String × β)) (k : String) (v : β) :
    alookup (aupsert l k v) k = some v := by
  induction l with
  | nil => simp [aupsert, alookup]
  | cons p rest ih =>
    obtain ⟨k0, v0⟩ := p
    by_cases h : k0 = k
    · simp [aupsert, h, alookup]
    · simp only [aupsert, if_neg h]
      simpa [alookup, h] using ih

/-- Upserting one key leaves every other key's binding unchanged. -/
theorem alookup_aupsert_ne {β : Type} (l : List (String × β)) (k k' : String) (v : β)
    (h : k' ≠ k) : alookup (aupsert l k v) k' = alookup l k' := by
  induction l with
  | nil => simp [aupsert, alookup, Ne.symm h]
  | cons p rest ih =>
    obtain ⟨k0, v0⟩ := p
    by_cases h0 : k0 = k
    · subst h0
      simp [aupsert, alookup, Ne.symm h]
    · by_cases h1 : k0 = k'
      · subst h1
        simp [aupsert, if_neg h0, alookup]
      · simp only [aupsert, if_neg h0]
        simpa [alookup, h1] using ih

/-- Reading back the upserted round post. -/
theorem getRoundPost_upsert_self (db : Db) (r : Round) (t : TribeId) (p : Post) :
    getRoundPost (upsertRoundPost db r t p).joust t r = some p := by
  cases r <;> simp [upsertRoundPost, getRoundPost, alookup_aupsert_self]

/-- Upserting a round post for one tribe leaves the same round's posts of
every other tribe unchanged. -/
theorem getRoundPost_upsert_ne (db : Db) (r : Round) (t t' : TribeId) (p : Post)
    (h : t' ≠ t) :
    getRoundPost (upsertRoundPost db r t p).joust t' r = getRoundPost db.joust t' r := by
  cases r <;> simp [upsertRoundPost, getRoundPost, alookup_aupsert_ne _ _ _ _ h]

/-- Upserting a round post does not touch the contest state. -/
theorem upsertRoundPost_state (db : Db) (r : Round) (t : TribeId) (p : Post) :
    (upsertRoundPost db r t p).joust.state = db.joust.state := by
  cases r <;> rfl

/-- Upserting a round post does not touch the contest id. -/
theorem upsertRoundPost_id (db : Db) (r : Round) (t : TribeId) (p : Post) :
    (upsertRoundPost db r t p).joust.id = db.joust.id := by
  cases r <;> rfl

/-- Recording a round-1 reply does not touch the contest id. -/
theorem recordRound1_joust_id (db : Db) (t : TribeId) (a : AgentId) (reply : RoundReply) :
    (recordRound1 db t a reply).joust.id = db.joust.id :=
  upsertRoundPost_id db Round.round1 t (r1Post (requiredToken db.joust) reply a)

/-- Recording a round-1 reply does not change the round token. -/
theorem requiredToken_recordRound1 (db : Db) (t : TribeId) (a : AgentId) (reply : RoundReply) :
    requiredToken (recordRound1 db t a reply).joust = requiredToken db.joust := by
  unfold requiredToken
  rw [recordRound1_joust_id]

/-- A callee is only produced for a tribe with no recorded post. -/
theorem roundCallee_no_post {db : Db} {t : TribeId} {r : Round} {ag : Agent}
    (h : roundCallee db t r = some ag) : getRoundPost db.joust t r = none := by
  unfold roundCallee at h
  cases hg : getRoundPost db.joust t r with
  | none => rfl
  | some q => rw [hg] at h; cases h

/-- Recording a round-1 post for a different tribe does not change a tribe's
round-1 callee. -/
theorem roundCallee_recordRound1_ne (db : Db) (t' : TribeId) (a : AgentId)
    (reply : RoundReply) (t : TribeId) (h : t ≠ t') :
    roundCallee (recordRound1 db t' a reply) t Round.round1 = roundCallee db t Round.round1 := by
  unfold roundCallee recordRound1
  rw [getRoundPost_upsert_ne db Round.round1 t' t _ h]
  cases hg : getRoundPost db.joust t Round.round1 <;> rfl

/-- A tribe with a recorded round-1 post keeps it through the round-1 pass
and is never called by it. -/
theorem round1Pass_posted (oracle : Oracle) (ts : List TribeId) :
    ∀ (db : Db) (t : TribeId) (p : Post),
      getRoundPost db.joust t Round.round1 = some p →
      getRoundPost (round1Pass oracle ts db).1.joust t Round.round1 = some p ∧
      ∀ a, CallEvent.roundCall Round.round1 t a ∉ (round1Pass oracle ts db).2.1 := by
  induction ts with
  | nil =>
    intro db t p h
    exact ⟨h, by intro a ha; simp [round1Pass] at ha⟩
  | cons t' rest ih =>
    intro db t p h
    simp only [round1Pass]
    cases hc : roundCallee db t' Round.round1 with
    | none =>
      simp only [hc]
      exact ih db t p h
    | some ag =>
      have ht : t ≠ t' := by
        intro he
        rw [he, roundCallee_no_post hc] at h
        cases h
      cases ho : oracle.roundReply Round.round1 t' with
      | error e =>
        simp only [hc, ho]
        refine ⟨h, ?_⟩
        intro a ha
        have he := List.mem_singleton.mp ha
        injection he with h1 h2 h3
        exact ht h2
      | ok reply =>
        simp only [hc, ho]
        have h2 : getRoundPost (recordRound1 db t' ag.id reply).joust t Round.round1 = some p := by
          unfold recordRound1
          rw [getRoundPost_upsert_ne db Round.round1 t' t _ ht]
          exact h
        obtain ⟨hpost, hcalls⟩ := ih (recordRound1 db t' ag.id reply) t p h2
        refine ⟨hpost, ?_⟩
        intro a ha
        rcases List.mem_cons.mp ha with he | hm
        · injection he with h1 h2 h3
          exact ht h2
        · exact hcalls a hm

/-- The round-1 pass does not change the contest state. -/
theorem round1Pass_state (oracle : Oracle) (ts : List TribeId) :
    ∀ db : Db, (round1Pass oracle ts db).1.joust.state = db.joust.state := by
  induction ts with
  | nil => intro db; rfl
  | cons t' rest ih =>
    intro db
    simp only [round1Pass]
    cases hc : roundCallee db t' Round.round1 with
    | none =>
      simp only [hc]
      exact ih db
    | some ag =>
      cases ho : oracle.roundReply Round.round1 t' with
      | error e => simp only [hc, ho]
      | ok reply =>
        simp only [hc, ho]
        rw [ih (recordRound1 db t' ag.id reply)]
        exact upsertRoundPost_state db Round.round1 t' _

/-- The round-1 pass records, for a not-yet-posted tribe whose callee exists
and whose callback succeeds, exactly the post computed by `r1Post` from the
entry token — provided no earlier tribe's callback aborted the pass. -/
theorem round1Pass_records (oracle : Oracle) (ts : List TribeId) :
    ∀ (db : Db) (t : TribeId) (ag : Agent) (reply : RoundReply),
      ts.Nodup → t ∈ ts →
      roundCallee db t Round.round1 = some ag →
      oracle.roundReply Round.round1 t = Except.ok reply →
      (round1Pass oracle ts db).2.2 = true →
      getRoundPost (round1Pass oracle ts db).1.joust t Round.round1 =
        some (r1Post (requiredToken db.joust) reply ag.id) := by
  induction ts with
  | nil => intro db t ag reply _ hmem; cases hmem
  | cons t' rest ih =>
    intro db t ag reply hnd hmem hcal horacle hok
    rcases List.mem_cons.mp hmem with heq | hmem'
    · subst heq
      simp only [round1Pass, hcal, horacle] at hok ⊢
      have h2 : getRoundPost (recordRound1 db t ag.id reply).joust t Round.round1 =
          some (r1Post (requiredToken db.joust) reply ag.id) :=
        getRoundPost_upsert_self db Round.round1 t _
      exact (round1Pass_posted oracle rest (recordRound1 db t ag.id reply) t _ h2).1
    · have hne : t ≠ t' := by
        intro he
        exact (List.nodup_cons.mp hnd).1 (he ▸ hmem')
      cases hc : roundCallee db t' Round.round1 with
      | none =>
        simp only [round1Pass, hc] at hok ⊢
        exact ih db t ag reply (List.nodup_cons.mp hnd).2 hmem' hcal horacle hok
      | some ag' =>
        cases ho : oracle.roundReply Round.round1 t' with
        | error e =>
          simp only [round1Pass, hc, ho] at hok
          cases hok
        | ok reply' =>
          simp only [round1Pass, hc, ho] at hok ⊢
          have hcal2 : roundCallee (recordRound1 db t' ag'.id reply') t Round.round1 =
              some ag :=
            (roundCallee_recordRound1_ne db t' ag'.id reply' t hne).trans hcal
          have hres := ih (recordRound1 db t' ag'.id reply') t ag reply
            (List.nodup_cons.mp hnd).2 hmem' hcal2 horacle hok
          rwa [requiredToken_recordRound1] at hres

/-- Recording a round-2 reply does not change round-1 posts or the state. -/
theorem recordRound2_effects (db : Db) (t : TribeId) (a : AgentId) (reply : RoundReply) :
    (recordRound2 db t a reply).joust.round1Posts = db.joust.round1Posts ∧
    (recordRound2 db t a reply).joust.state = db.joust.state := ⟨rfl, rfl⟩

/-- A tribe with a recorded round-2 post keeps it through the round-2 pass
and is never called by it. -/
theorem round2Pass_posted (oracle : Oracle) (ts : List TribeId) :
    ∀ (db : Db) (t : TribeId) (p : Post),
      getRoundPost db.joust t Round.round2 = some p →
      getRoundPost (round2Pass oracle ts db).1.joust t Round.round2 = some p ∧
      ∀ a, CallEvent.roundCall Round.round2 t a ∉ (round2Pass oracle ts db).2.1 := by
  induction ts with
  | nil =>
    intro db t p h
    exact ⟨h, by intro a ha; simp [round2Pass] at ha⟩
  | cons t' rest ih =>
    intro db t p h
    simp only [round2Pass]
    cases hc : roundCallee db t' Round.round2 with
    | none =>
      simp only [hc]
      exact ih db t p h
    | some ag =>
      have ht : t ≠ t' := by
        intro he
        rw [he, roundCallee_no_post hc] at h
        cases h
      cases ho : oracle.roundReply Round.round2 t' with
      | error e =>
        simp only [hc, ho]
        refine ⟨h, ?_⟩
        intro a ha
        have he := List.mem_singleton.mp ha
        injection he with h1 h2 h3
        exact ht h2
      | ok reply =>
        simp only [hc, ho]
        have h2 : getRoundPost (recordRound2 db t' ag.id reply).joust t Round.round2 = some p := by
          unfold recordRound2
          rw [getRoundPost_upsert_ne db Round.round2 t' t _ ht]
          exact h
        obtain ⟨hpost, hcalls⟩ := ih (recordRound2 db t' ag.id reply) t p h2
        refine ⟨hpost, ?_⟩
        intro a ha
        rcases List.mem_cons.mp ha with he | hm
        · injection he with h1 h2 h3
          exact ht h2
        · exact hcalls a hm

/-- The round-2 pass does not change the contest state. -/
theorem round2Pass_state (oracle : Oracle) (ts : List TribeId) :
    ∀ db : Db, (round2Pass oracle ts db).1.joust.state = db.joust.state := by
  induction ts with
  | nil => intro db; rfl
  | cons t' rest ih =>
    intro db
    simp only [round2Pass]
    cases hc : roundCallee db t' Round.round2 with
    | none =>
      simp only [hc]
      exact ih db
    | some ag =>
      cases ho : oracle.roundReply Round.round2 t' with
      | error e => simp only [hc, ho]
      | ok reply =>
        simp only [hc, ho]
        rw [ih (recordRound2 db t' ag.id reply)]
        exact upsertRoundPost_state db Round.round2 t' _

/-- Recording a vote for one agent leaves other agents' votes unchanged. -/
theorem upsertVote_votes_ne (db : Db) (b : AgentId) (v : Choice) (a : AgentId)
    (h : a ≠ b) :
    alookup (upsertVote db b v).joust.votes a = alookup db.joust.votes a := by
  simp [upsertVote, alookup_aupsert_ne _ _ _ _ h]

/-- A vote-phase callback failure leaves that agent's vote binding unchanged
through the whole poll loop. -/
theorem votePass_votes_error (oracle : Oracle) (scope : String)
    (initialVotes : List (AgentId × Choice)) (tribeIds : List TribeId) (a : AgentId)
    (herr : oracle.voteReply a = Except.error ()) :
    ∀ (l : List (Agent × Option TribeId)) (db : Db),
      alookup (votePass oracle scope initialVotes tribeIds l db).1.joust.votes a =
        alookup db.joust.votes a := by
  intro l
  induction l with
  | nil => intro db; rfl
  | cons p rest ih =>
    intro db
    obtain ⟨ag', tid'⟩ := p
    unfold votePass
    by_cases h1 : (decide (scope = "arena") &&
        (match tid' with
         | some t => decide (t ∉ tribeIds)
         | none => false)) = true
    · rw [if_pos h1]
      exact ih db
    · rw [if_neg h1]
      by_cases h2 : (alookup initialVotes ag'.id).isSome = true
      · rw [if_pos h2]
        exact ih db
      · rw [if_neg h2]
        cases ho : oracle.voteReply ag'.id with
        | error e =>
          simp only [ho]
          exact ih db
        | ok reply =>
          simp only [ho]
          have hne : a ≠ ag'.id := by
            intro he
            rw [← he, herr] at ho
            cases ho
          rw [ih _]
          by_cases hA : upperStr reply.vote = "A"
          · rw [if_pos hA]
            exact upsertVote_votes_ne db ag'.id Choice.A a hne
          · rw [if_neg hA]
            by_cases hB : upperStr reply.vote = "B"
            · rw [if_pos hB]
              exact upsertVote_votes_ne db ag'.id Choice.B a hne
            · rw [if_neg hB]

/-- The infamy fold does not touch the contest record. -/
theorem infamyFold_joust (j : Joust) (c : Computed) (w : Option TribeId)
    (wo : Option Choice) :
    ∀ (ts : List TribeId) (db : Db),
      (ts.foldl (infamyStep j c w wo) db).joust = db.joust := by
  intro ts
  induction ts with
  | nil => intro db; rfl
  | cons t rest ih =>
    intro db
    show (rest.foldl (infamyStep j c w wo) (infamyStep j c w wo db t)).joust = db.joust
    rw [ih (infamyStep j c w wo db t), infamyStep_joust]

/-- `applyInfamy` does not touch the contest record. -/
theorem applyInfamy_joust (db : Db) (j : Joust) (c : Computed) (f : Option TribeId) :
    (applyInfamy db j c f).2.joust = db.joust := by
  unfold applyInfamy
  exact infamyFold_joust j c _ _ j.tribeIds db

/-- The conquest pass does not touch the contest record. -/
theorem migratePass_joust (w : TribeId) :
    ∀ (l : List TribeId) (db : Db) (wm : List AgentId) (m : Nat) (acc : List TribeMove),
      (migratePass w l db wm m acc).1.joust = db.joust := by
  intro l
  induction l with
  | nil => intro db wm m acc; rfl
  | cons t1 rest ih =>
    intro db wm m acc
    unfold migratePass
    by_cases ht1 : t1 = w
    · rw [if_pos ht1]
      exact ih db wm m acc
    · rw [if_neg ht1]
      rw [ih _ _ _ _]
      exact (migrateTribe_joust w (listTribeMemberIds db t1) db wm).1

/-- Conquest migration does not touch the contest record. -/
theorem migrateParticipantsToWinner_joust (db : Db) (j : Joust) (w : Option TribeId) :
    (migrateParticipantsToWinner db j w).2.joust = db.joust := by
  cases w with
  | none => rfl
  | some w' => exact migratePass_joust w' j.tribeIds db _ 0 []

/-- Resolving the contest does not change the recorded votes. -/
theorem resolveJoust_votes (mode : String) (hasKey : Bool) (oracle : Oracle) (db : Db) :
    (resolveJoust mode hasKey oracle db).joust.votes = db.joust.votes := by
  show (migrateParticipantsToWinner (applyInfamy db db.joust
      (computePersuasion db db.joust db.joust.votes)
      (decideWinnerTribe mode hasKey oracle.analysis db db.joust).winnerTribeId).2 db.joust
      (applyInfamy db db.joust (computePersuasion db db.joust db.joust.votes)
        (decideWinnerTribe mode hasKey oracle.analysis db db.joust).winnerTribeId).1.winnerTribeId).2.joust.votes
    = db.joust.votes
  rw [migrateParticipantsToWinner_joust, applyInfamy_joust]

/-- `clampText` never yields more than `maxLen` characters. -/
theorem clampText_length (s : String) (n : Nat) : (clampText s n).data.length ≤ n := by
  unfold clampText
  by_cases h : (String.mk (normCRLF s.data)).data.length ≤ n
  · rw [if_pos h]
    exact h
  · rw [if_neg h]
    exact List.length_take_le n (normCRLF s.data)

/-- C5 (amended).  During round 1, for an un-posted tribe whose callee exists
and whose callback reply arrives (and no earlier tribe aborted the pass), the
recorded post is `r1Post` of the reply: the message is first clamped to at
most 240 characters (an over-length message is truncated, not forfeited); a
clamped message that is empty or contains a URL-like substring forfeits with
`"<token> (forfeit)"`; otherwise the clamped message is recorded with the
token prepended exactly when it does not already contain it. -/
theorem C5_round1_recording (mode : String) (hasKey : Bool) (scope : String)
    (oracle : Oracle) (db : Db) (t : TribeId) (ag : Agent) (reply : RoundReply)
    (hstate : db.joust.state = JState.round1) (hnd : db.joust.tribeIds.Nodup)
    (ht : t ∈ db.joust.tribeIds)
    (hcal : roundCallee db t Round.round1 = some ag)
    (hrep : oracle.roundReply Round.round1 t = Except.ok reply)
    (hok : (stepJoust mode hasKey scope oracle db).ok = true) :
    getRoundPost (stepJoust mode hasKey scope oracle db).db.joust t Round.round1 =
      some (r1Post (requiredToken db.joust) reply ag.id) ∧
    (clampText reply.message 240).data.length ≤ 240 ∧
    (clampText reply.message 240 = "" ∨ hasLink (clampText reply.message 240) = true →
      r1Post (requiredToken db.joust) reply ag.id =
        ⟨requiredToken db.joust ++ " (forfeit)", none, ag.id⟩) ∧
    (clampText reply.message 240 ≠ "" → hasLink (clampText reply.message 240) = false →
      (r1Post (requiredToken db.joust) reply ag.id).message =
        (if strContains (clampText reply.message 240) (requiredToken db.joust) then
          clampText reply.message 240
         else requiredToken db.joust ++ " " ++ clampText reply.message 240)) := by
  refine ⟨?_, clampText_length reply.message 240, ?_, ?_⟩
  · unfold stepJoust at hok ⊢
    rw [hstate] at hok ⊢
    by_cases hp : (round1Pass oracle db.joust.tribeIds db).2.2 = true
    · rw [if_pos hp]
      show getRoundPost (round1Pass oracle db.joust.tribeIds db).1.joust t Round.round1 = _
      exact round1Pass_records oracle db.joust.tribeIds db t ag reply hnd ht hcal hrep hp
    · rw [if_neg hp] at hok
      cases hok
  · intro hforf
    unfold r1Post
    rw [if_pos (by rcases hforf with he | hl
                   · simp [he]
                   · simp [hl])]
  · intro hne hnl
    unfold r1Post
    rw [if_neg (by simp [hne, hnl])]
    by_cases htok : strContains (clampText reply.message 240) (requiredToken db.joust) = true
    · rw [if_pos htok, if_pos htok]
    · rw [if_neg htok, if_neg htok]

set_option maxRecDepth 40000 in
/-- Closed witness for the amended C5: the over-length reply on the one-tribe
round-1 fixture is recorded as computed by `r1Post`. -/
theorem C5_round1_recording_witness :
    exDbR1.joust.state = JState.round1 ∧
    (getRoundPost (stepJoust "rules" false "arena" exOracleLong exDbR1).db.joust "t1"
        Round.round1 =
      some (r1Post (requiredToken exDbR1.joust) ⟨exLongMsg, "A"⟩ "a1") ∧
    (clampText exLongMsg 240).data.length ≤ 240 ∧
    (clampText exLongMsg 240 = "" ∨ hasLink (clampText exLongMsg 240) = true →
      r1Post (requiredToken exDbR1.joust) ⟨exLongMsg, "A"⟩ "a1" =
        ⟨requiredToken exDbR1.joust ++ " (forfeit)", none, "a1"⟩) ∧
    (clampText exLongMsg 240 ≠ "" → hasLink (clampText exLongMsg 240) = false →
      (r1Post (requiredToken exDbR1.joust) ⟨exLongMsg, "A"⟩ "a1").message =
        (if strContains (clampText exLongMsg 240) (requiredToken exDbR1.joust) then
          clampText exLongMsg 240
         else requiredToken exDbR1.joust ++ " " ++ clampText exLongMsg 240))) :=
  ⟨by decide,
    C5_round1_recording "rules" false "arena" exOracleLong exDbR1 "t1" ⟨"a1", 0, 0, 0⟩
      ⟨exLongMsg, "A"⟩ (by decide) (by decide) (by decide) (by decide) rfl (by decide)⟩

set_option maxRecDepth 40000 in
/-- Counterexample for C5 as stated: a 241-character reply message (one past
the limit, already containing the token, no link) is *not* forfeited — the
engine records the message truncated to its first 240 characters. -/
theorem C5_overlength_counterexample :
    exLongMsg.data.length = 241 ∧
    (stepJoust "rules" false "arena" exOracleLong exDbR1).ok = true ∧
    getRoundPost (stepJoust "rules" false "arena" exOracleLong exDbR1).db.joust "t1"
        Round.round1 =
      some ⟨String.mk ("#j0001 ".data ++ List.replicate 233 'a'), none, "a1"⟩ ∧
    (String.mk ("#j0001 ".data ++ List.replicate 233 'a')).data.length = 240 ∧
    String.mk ("#j0001 ".data ++ List.replicate 233 'a') ≠
      requiredToken exDbR1.joust ++ " (forfeit)" := by
  refine ⟨by decide, by decide, by decide, by decide, by decide⟩

/-- C4.  One advance call is inert on a finished contest; it never re-invokes
a tribe that already has a recorded post for the active round and keeps that
post; a round-phase callback error aborts the call with the contest state
unchanged (posts recorded before the error are kept by the pass); a completed
call advances the state by exactly one step in the fixed order; and the vote
phase always completes — a per-agent callback failure is swallowed, leaving
that agent's vote binding unchanged. -/
theorem C4_advance_step (mode : String) (hasKey : Bool) (scope : String) (oracle : Oracle)
    (db : Db) :
    (db.joust.state = JState.done → stepJoust mode hasKey scope oracle db = ⟨db, true, []⟩) ∧
    (∀ t p a, db.joust.state = JState.round1 →
      getRoundPost db.joust t Round.round1 = some p →
      CallEvent.roundCall Round.round1 t a ∉ (stepJoust mode hasKey scope oracle db).calls ∧
      getRoundPost (stepJoust mode hasKey scope oracle db).db.joust t Round.round1 = some p) ∧
    (∀ t p a, db.joust.state = JState.round2 →
      getRoundPost db.joust t Round.round2 = some p →
      CallEvent.roundCall Round.round2 t a ∉ (stepJoust mode hasKey scope oracle db).calls ∧
      getRoundPost (stepJoust mode hasKey scope oracle db).db.joust t Round.round2 = some p) ∧
    (db.joust.state = JState.round1 → (stepJoust mode hasKey scope oracle db).ok = false →
      (stepJoust mode hasKey scope oracle db).db.joust.state = JState.round1) ∧
    (db.joust.state = JState.round2 → (stepJoust mode hasKey scope oracle db).ok = false →
      (stepJoust mode hasKey scope oracle db).db.joust.state = JState.round2) ∧
    (db.joust.state ≠ JState.done → (stepJoust mode hasKey scope oracle db).ok = true →
      (stepJoust mode hasKey scope oracle db).db.joust.state = nextState db.joust.state) ∧
    (db.joust.state = JState.vote →
      (stepJoust mode hasKey scope oracle db).ok = true ∧
      (stepJoust mode hasKey scope oracle db).db.joust.state = JState.done ∧
      ∀ a, oracle.voteReply a = Except.error () →
        alookup (stepJoust mode hasKey scope oracle db).db.joust.votes a =
          alookup db.joust.votes a) := by
  refine ⟨?_, ?_, ?_, ?_, ?_, ?_, ?_⟩
  · intro h
    unfold stepJoust
    rw [h]
  · intro t p a hstate hpost
    unfold stepJoust
    rw [hstate]
    obtain ⟨hkeep, hnc⟩ := round1Pass_posted oracle db.joust.tribeIds db t p hpost
    by_cases hp : (round1Pass oracle db.joust.tribeIds db).2.2 = true
    · rw [if_pos hp]
      exact ⟨hnc a, hkeep⟩
    · rw [if_neg hp]
      exact ⟨hnc a, hkeep⟩
  · intro t p a hstate hpost
    unfold stepJoust
    rw [hstate]
    obtain ⟨hkeep, hnc⟩ := round2Pass_posted oracle db.joust.tribeIds db t p hpost
    by_cases hp : (round2Pass oracle db.joust.tribeIds db).2.2 = true
    · rw [if_pos hp]
      exact ⟨hnc a, hkeep⟩
    · rw [if_neg hp]
      exact ⟨hnc a, hkeep⟩
  · intro hstate hok
    unfold stepJoust at hok ⊢
    rw [hstate] at hok ⊢
    by_cases hp : (round1Pass oracle db.joust.tribeIds db).2.2 = true
    · rw [if_pos hp] at hok
      cases hok
    · rw [if_neg hp]
      rw [round1Pass_state oracle db.joust.tribeIds db]
      exact hstate
  · intro hstate hok
    unfold stepJoust at hok ⊢
    rw [hstate] at hok ⊢
    by_cases hp : (round2Pass oracle db.joust.tribeIds db).2.2 = true
    · rw [if_pos hp] at hok
      cases hok
    · rw [if_neg hp]
      rw [round2Pass_state oracle db.joust.tribeIds db]
      exact hstate
  · intro hnd hok
    cases hstate : db.joust.state with
    | done => exact absurd hstate hnd
    | draft =>
      unfold stepJoust
      simp only [hstate]
      rfl
    | round1 =>
      unfold stepJoust at hok ⊢
      simp only [hstate] at hok ⊢
      by_cases hp : (round1Pass oracle db.joust.tribeIds db).2.2 = true
      · rw [if_pos hp]
        rfl
      · rw [if_neg hp] at hok
        cases hok
    | round2 =>
      unfold stepJoust at hok ⊢
      simp only [hstate] at hok ⊢
      by_cases hp : (round2Pass oracle db.joust.tribeIds db).2.2 = true
      · rw [if_pos hp]
        rfl
      · rw [if_neg hp] at hok
        cases hok
    | vote =>
      unfold stepJoust
      simp only [hstate]
      rfl
  · intro hstate
    unfold stepJoust
    rw [hstate]
    refine ⟨rfl, rfl, ?_⟩
    intro a herr
    show alookup (resolveJoust mode hasKey oracle
        (votePass oracle scope db.joust.votes db.joust.tribeIds
          (listAgentsWithTribe db) db).1).joust.votes a = _
    rw [resolveJoust_votes]
    exact votePass_votes_error oracle scope db.joust.votes db.joust.tribeIds a herr
      (listAgentsWithTribe db) db

/-- Closed witness for C4: inertness on the finished fixture, and
no-reinvocation with post preservation on the posted round-1 fixture under
the always-failing oracle. -/
theorem C4_advance_step_witness :
    stepJoust "rules" false "arena" exOracleErr exDbDone = ⟨exDbDone, true, []⟩ ∧
    (CallEvent.roundCall Round.round1 "t1" "a9" ∉
        (stepJoust "rules" false "arena" exOracleErr exDbR1p).calls ∧
      getRoundPost (stepJoust "rules" false "arena" exOracleErr exDbR1p).db.joust "t1"
        Round.round1 = some ⟨"#j000 done", none, "a1"⟩) :=
  ⟨(C4_advance_step "rules" false "arena" exOracleErr exDbDone).1 (by decide),
    (C4_advance_step "rules" false "arena" exOracleErr exDbR1p).2.1 "t1"
      ⟨"#j000 done", none, "a1"⟩ "a9" (by decide) (by decide)⟩

end OpenRiddle
